import Mathlib

/-!
# Sigil `OPFModel`: a shallow embedding of `src/Sigil/MainUI/OPFModel.cpp`

`OPFModel` is the item model behind the Book Browser.  The embedding keeps

* the tree the class maintains: the rows of the invisible root item (the five
  folder items, identified by which member they are, and the OPF/NCX file
  items) and the rows of each of the five folders;
* the flag `m_RefreshInProgress`;
* a trace of every call the class makes on its collaborators (the book, the
  OPF, the resource, `UniversalUpdates`, the error dialog, its own signal
  `BookContentModified`), in the order the calls happen.

A `QString` is a `String`, a `QChar` a `Char`, a C++ `int` an `Int`
(the file does no arithmetic on it beyond `i - 1`, `i + 1` on row numbers).
Collaborators whose code lives in other files (`FolderKeeper`, `Resource`,
`OPFResource`, the extension lists) enter as fields of `Book`, `Extensions`
and as the `RenameTo` argument.  Icons and the wait cursor are left out: no
function of the file reads them back.

Qt signal delivery is embedded for `rowsRemoved`, which `removeRow` raises and
the constructor connects to `RowsRemovedHandler`.  The `itemChanged` signal
that `setText` and `setData` raise on an item already in the model is not
delivered a second time inside the embedding: the nested call of
`ItemChangedHandler` finds the text equal to the filename and sets the text
it already has.

`ClearModel` is defined by well-founded recursion on the row counts its loops
test, so it is a total function: the loops end from every model.
-/

namespace OPFModel

/-! ## Resources and the book -/

/-- The enumerators of `Resource::ResourceType` that `OPFModel.cpp` names,
and `OtherResourceType` for every further enumerator of that enum (the enum is
declared in `ResourceObjects/Resource.h`; `InitializeModel` ends in a plain
`else` that receives all of them). -/
inductive ResourceType where
  | GenericResourceType
  | HTMLResourceType
  | CSSResourceType
  | XPGTResourceType
  | ImageResourceType
  | FontResourceType
  | OPFResourceType
  | NCXResourceType
  | OtherResourceType (tag : Nat)
  deriving DecidableEq, Repr

/-- What the file reads from a `Resource`: `GetIdentifier()`, `Filename()`,
`Type()`, `GetFullPath()` and `GetRelativePathToOEBPS()`. -/
structure Resource where
  identifier : String
  filename : String
  type : ResourceType
  fullPath : String
  relativePathToOEBPS : String
  deriving DecidableEq, Repr

/-- The book as `OPFModel` sees it. `resources` is
`GetFolderKeeper().GetResourceList()`, `GetResourceByIdentifier` returns a
`Resource&` and is a total function of the identifier, `GetReadingOrder`
is the OPF's answer for an HTML resource, `GetUniqueFilenameVersion` is the
folder keeper's. -/
structure Book where
  resources : List Resource
  GetResourceByIdentifier : String → Resource
  GetUniqueFilenameVersion : String → String
  GetReadingOrder : Resource → Int

/-- The three extension lists `FilenameIsValid` consults; they are defined
outside `OPFModel.cpp`. -/
structure Extensions where
  TEXT_EXTENSIONS : List String
  JPG_EXTENSIONS : List String
  TIFF_EXTENSIONS : List String

/-- Calls made on collaborators, in program order. -/
inductive Event where
  | DisplayStdErrorDialog (message : String)
  | RenameTo (identifier : String) (new_filename : String)
  | PerformUniversalUpdates (in_place : Bool) (resources : List Resource)
      (update : List (String × String))
  | BookContentModified
  | UpdateSpineOrder (reading_order_htmls : List Resource)
  | SetModified
  deriving DecidableEq, Repr

/-! ## Constants of the file -/

/-- `std::numeric_limits< int >::max()` for a 32-bit `int`. -/
def NO_READING_ORDER : Int := 2147483647

/-- The nine characters a filename may not contain. -/
def FORBIDDEN_FILENAME_CHARS : List Char :=
  ['<', '>', ':', '"', '/', '\\', '|', '?', '*']

/-! ## `QFileInfo::suffix` -/

/-- The text after the last occurrence of `sep`, if `sep` occurs. -/
def afterLast (sep : Char) : List Char → Option (List Char)
  | [] => none
  | c :: cs =>
    match afterLast sep cs with
    | some t => some t
    | none => if c = sep then some cs else none

/-- `QFileInfo( name ).fileName()`: the name without its directory part. -/
def QFileInfo_fileName (name : String) : List Char :=
  (afterLast '/' name.data).getD name.data

/-- `QFileInfo( name ).suffix()`: the text after the last `.` of the file
name, empty when the file name has no `.`. -/
def QFileInfo_suffix (name : String) : String :=
  String.mk ((afterLast '.' (QFileInfo_fileName name)).getD [])

/-! ## `FilenameIsValid` -/

/-- The first character of the name that is forbidden, as the `foreach` over
`new_filename` meets it. -/
def firstForbidden : List Char → Option Char
  | [] => none
  | character :: rest =>
    if FORBIDDEN_FILENAME_CHARS.contains character then some character
    else firstForbidden rest

/-- The extension test of `FilenameIsValid` (the condition of its third
`if`): true when the change of extension is refused. -/
def extensionChangeRefused (ext : Extensions) (old_extension new_extension : String) : Bool :=
  old_extension != new_extension &&
    !((ext.TEXT_EXTENSIONS.contains old_extension && ext.TEXT_EXTENSIONS.contains new_extension) ||
      (ext.JPG_EXTENSIONS.contains old_extension && ext.JPG_EXTENSIONS.contains new_extension) ||
      (ext.TIFF_EXTENSIONS.contains old_extension && ext.TIFF_EXTENSIONS.contains new_extension))

/-- `OPFModel::FilenameIsValid`: the verdict, and the error dialog shown when
the verdict is `false`. -/
def FilenameIsValid (ext : Extensions) (book : Book) (old_filename new_filename : String) :
    Bool × List Event :=
  if new_filename.isEmpty then
    (false, [Event.DisplayStdErrorDialog "The filename cannot be empty."])
  else
    match firstForbidden new_filename.data with
    | some character =>
      (false, [Event.DisplayStdErrorDialog
        ("A filename cannot contains the character \"" ++ String.singleton character ++ "\".")])
    | none =>
      let old_extension := QFileInfo_suffix old_filename
      let new_extension := QFileInfo_suffix new_filename
      if extensionChangeRefused ext old_extension new_extension then
        (false, [Event.DisplayStdErrorDialog
          ("This file's extension cannot be changed in that way.\nYou used \"" ++ new_extension ++
            "\", and the old extension was \"" ++ old_extension ++ "\".")])
      else if new_filename != book.GetUniqueFilenameVersion new_filename then
        (false, [Event.DisplayStdErrorDialog
          ("The filename \"" ++ new_filename ++ "\" is already in use.\n")])
      else
        (true, [])

/-! ## The item tree -/

/-- The five folder items, members `m_TextFolderItem` .. `m_MiscFolderItem`;
an item pointer is compared with their addresses, so which member an item is
is part of its identity. -/
inductive Folder where
  | Text
  | Styles
  | Images
  | Fonts
  | Misc
  deriving DecidableEq, Repr

/-- A `QStandardItem`: its text, its `data()` (the resource identifier, empty
when never set), its `data( READING_ORDER_ROLE )` and the three flags the
file sets. -/
structure Item where
  text : String
  identifier : String
  reading_order : Option Int
  editable : Bool
  dragEnabled : Bool
  dropEnabled : Bool
  deriving DecidableEq, Repr

/-- A row of the invisible root item: one of the five folder items or an item
made for a resource. -/
inductive RootRow where
  | folder (f : Folder)
  | file (item : Item)
  deriving DecidableEq, Repr

/-- An item that holds rows: `invisibleRootItem()` or one of the folders. -/
inductive Parent where
  | root
  | folder (f : Folder)
  deriving DecidableEq, Repr

/-- The `QModelIndex` that `index( row, column, parent )` builds. -/
structure QModelIndex where
  row : Nat
  column : Nat
  parent : Parent
  deriving DecidableEq, Repr

/-- `OPFModel::IndexChoice`. -/
inductive IndexChoice where
  | IndexChoice_Current
  | IndexChoice_Previous
  | IndexChoice_Next
  deriving DecidableEq, Repr

/-- The two item data roles the model sorts by. -/
inductive SortRole where
  | DisplayRole
  | READING_ORDER_ROLE
  deriving DecidableEq, Repr

/-- The state of an `OPFModel` object and the trace of its outgoing calls. -/
structure Model where
  m_RefreshInProgress : Bool
  sortRole : SortRole
  root : List RootRow
  m_TextFolderItem : List Item
  m_StylesFolderItem : List Item
  m_ImagesFolderItem : List Item
  m_FontsFolderItem : List Item
  m_MiscFolderItem : List Item
  trace : List Event
  deriving DecidableEq, Repr

/-- The rows of a folder item. -/
def rows (f : Folder) (m : Model) : List Item :=
  match f with
  | .Text => m.m_TextFolderItem
  | .Styles => m.m_StylesFolderItem
  | .Images => m.m_ImagesFolderItem
  | .Fonts => m.m_FontsFolderItem
  | .Misc => m.m_MiscFolderItem

/-- Replace the rows of a folder item. -/
def setRows (f : Folder) (l : List Item) (m : Model) : Model :=
  match f with
  | .Text => { m with m_TextFolderItem := l }
  | .Styles => { m with m_StylesFolderItem := l }
  | .Images => { m with m_ImagesFolderItem := l }
  | .Fonts => { m with m_FontsFolderItem := l }
  | .Misc => { m with m_MiscFolderItem := l }

/-- The folder item itself, as the constructor sets it up: its `data()` was
never set, it is not editable, not draggable, and only the Text folder accepts
drops. -/
def folderItem (f : Folder) : Item :=
  { text := match f with
      | .Text => "Text" | .Styles => "Styles" | .Images => "Images"
      | .Fonts => "Fonts" | .Misc => "Misc"
    identifier := ""
    reading_order := none
    editable := false
    dragEnabled := false
    dropEnabled := decide (f = .Text) }

/-- The item a root row points to. -/
def rowItem : RootRow → Item
  | .folder f => folderItem f
  | .file item => item

/-- `parent->child( i )` for every row `i`, top to bottom. -/
def children (parent : Parent) (m : Model) : List Item :=
  match parent with
  | .root => m.root.map rowItem
  | .folder f => rows f m

/-- The model the constructor builds: the five folders appended to the root
in this order, no book yet. -/
def OPFModel_constructor : Model :=
  { m_RefreshInProgress := false
    sortRole := .DisplayRole
    root := [.folder .Text, .folder .Styles, .folder .Images, .folder .Fonts, .folder .Misc]
    m_TextFolderItem := []
    m_StylesFolderItem := []
    m_ImagesFolderItem := []
    m_FontsFolderItem := []
    m_MiscFolderItem := []
    trace := [] }

/-! ## Reading orders and the `rowsRemoved` slot -/

/-- The `for` loop of `UpdateHTMLReadingOrders` from row `i` on: every item
gets `i` as its reading order, and the resource its identifier names is
collected when the cast to `HTMLResource` succeeds, that is when the resource
is of `HTMLResourceType`. -/
def UpdateHTMLReadingOrders_loop (book : Book) : Nat → List Item → List Item × List Resource
  | _, [] => ([], [])
  | i, html_item :: rest =>
    let html_resource := book.GetResourceByIdentifier html_item.identifier
    let done := UpdateHTMLReadingOrders_loop book (i + 1) rest
    ({ html_item with reading_order := some (i : Int) } :: done.1,
      if html_resource.type = .HTMLResourceType then html_resource :: done.2 else done.2)

/-- `OPFModel::UpdateHTMLReadingOrders`. -/
def UpdateHTMLReadingOrders (book : Book) (m : Model) : Model :=
  let done := UpdateHTMLReadingOrders_loop book 0 m.m_TextFolderItem
  { m with
    m_TextFolderItem := done.1
    trace := m.trace ++ [Event.UpdateSpineOrder done.2, Event.SetModified] }

/-- `OPFModel::RowsRemovedHandler`; `parent` stands for the index the signal
carries: a folder for the index of that folder item, the root for the invalid
index, for which `itemFromIndex` finds no item and so not the Text folder. -/
def RowsRemovedHandler (book : Book) (parent : Parent) (_start _end : Nat) (m : Model) : Model :=
  if m.m_RefreshInProgress || parent != .folder .Text then m
  else UpdateHTMLReadingOrders book m

/-- `removeRow( row )` on the root or a folder item: the row goes, and the
model raises `rowsRemoved`, which the constructor connected to
`RowsRemovedHandler`. A row that does not exist is not removed. -/
def removeRow (book : Book) (parent : Parent) (row : Nat) (m : Model) : Model :=
  match parent with
  | .root =>
    if row < m.root.length then
      RowsRemovedHandler book .root row row { m with root := m.root.eraseIdx row }
    else m
  | .folder f =>
    if row < (rows f m).length then
      RowsRemovedHandler book (.folder f) row row (setRows f ((rows f m).eraseIdx row) m)
    else m

/-! ## `ClearModel` -/

/-- One of the first five loops of `ClearModel`:
`while ( folder.rowCount() != 0 ) folder.removeRow( 0 )`. -/
def ClearModel_folder (book : Book) (f : Folder) (m : Model) : Model :=
  if (rows f m).length ≠ 0 then ClearModel_folder book f (removeRow book (.folder f) 0 m)
  else m
termination_by (rows f m).length
decreasing_by
  rename_i h
  have key : ∀ (l : List Item) (i : Nat),
      (UpdateHTMLReadingOrders_loop book i l).1.length = l.length := by
    intro l
    induction l with
    | nil => intro i; rfl
    | cons _ t ih => intro i; simp [UpdateHTMLReadingOrders_loop, ih]
  have hpos : 0 < (rows f m).length := Nat.pos_of_ne_zero h
  cases f <;>
    simp only [removeRow, rows, setRows, RowsRemovedHandler, UpdateHTMLReadingOrders] at hpos ⊢ <;>
    simp only [hpos, if_true] <;>
    split <;>
    simp [key, List.length_eraseIdx, hpos]

/-- The test of the last loop of `ClearModel`: the child is none of the five
folder items. -/
def isNoFolderItem (child : RootRow) : Bool :=
  child != .folder .Text &&
  child != .folder .Styles &&
  child != .folder .Images &&
  child != .folder .Fonts &&
  child != .folder .Misc

/-- The last loop of `ClearModel`, from row `i` on. -/
def ClearModel_root (book : Book) (i : Nat) (m : Model) : Model :=
  if h : i < m.root.length then
    if isNoFolderItem (m.root.get ⟨i, h⟩) then ClearModel_root book i (removeRow book .root i m)
    else ClearModel_root book (i + 1) m
  else m
termination_by m.root.length - i
decreasing_by
  · simp only [removeRow, RowsRemovedHandler, h, if_true]
    simp [List.length_eraseIdx, h]
    omega
  · omega

/-- `OPFModel::ClearModel`. -/
def ClearModel (book : Book) (m : Model) : Model :=
  let m := ClearModel_folder book .Text m
  let m := ClearModel_folder book .Styles m
  let m := ClearModel_folder book .Images m
  let m := ClearModel_folder book .Fonts m
  let m := ClearModel_folder book .Misc m
  ClearModel_root book 0 m

/-! ## `InitializeModel` -/

/-- `parent.appendRow( item )`; under the root the item becomes a file row. -/
def appendRow (parent : Parent) (item : Item) (m : Model) : Model :=
  match parent with
  | .root => { m with root := m.root ++ [.file item] }
  | .folder f => setRows f (rows f m ++ [item]) m

/-- The body of the `foreach` of `InitializeModel` for one resource: the new
item (drops disabled, the identifier as its data) is configured and appended
to the parent its type selects. -/
def InitializeModel_body (book : Book) (m : Model) (resource : Resource) : Model :=
  let item : Item :=
    { text := resource.filename
      identifier := resource.identifier
      reading_order := none
      editable := true
      dragEnabled := true
      dropEnabled := false }
  if resource.type = .HTMLResourceType then
    let reading_order := book.GetReadingOrder resource
    let reading_order := if reading_order = -1 then NO_READING_ORDER else reading_order
    let item := { item with reading_order := some reading_order }
    appendRow (.folder .Text) item m
  else if resource.type = .CSSResourceType ∨ resource.type = .XPGTResourceType then
    let item := { item with dragEnabled := false }
    appendRow (.folder .Styles) item m
  else if resource.type = .ImageResourceType then
    appendRow (.folder .Images) item m
  else if resource.type = .FontResourceType then
    let item := { item with dragEnabled := false }
    appendRow (.folder .Fonts) item m
  else if resource.type = .OPFResourceType ∨ resource.type = .NCXResourceType then
    let item := { item with editable := false, dragEnabled := false }
    appendRow .root item m
  else
    appendRow (.folder .Misc) item m

/-- `OPFModel::InitializeModel`. -/
def InitializeModel (book : Book) (m : Model) : Model :=
  book.resources.foldl (InitializeModel_body book) (ClearModel book m)

/-! ## Sorting -/

/-- The UTF-16 code units a `QString` holds for one character: the code
point itself below U+10000, a high and a low surrogate from there on. -/
def utf16Units (c : Char) : List Nat :=
  if c.toNat < 0x10000 then [c.toNat]
  else [0xD800 + (c.toNat - 0x10000) / 0x400, 0xDC00 + (c.toNat - 0x10000) % 0x400]

/-- The `QChar`s of a string, in order. -/
def qchars : List Char → List Nat
  | [] => []
  | c :: cs => utf16Units c ++ qchars cs

/-- Lexicographic order on sequences of code units: the first differing
position decides, a proper initial part is smaller. -/
def unitsLessThan : List Nat → List Nat → Bool
  | _, [] => false
  | [], _ :: _ => true
  | a :: as, b :: bs =>
    if a < b then true
    else if b < a then false
    else unitsLessThan as bs

/-- `QString::compare( a, b ) < 0`: the two strings compared `QChar` by
`QChar`, that is by their UTF-16 code units. -/
def codesLessThan (a b : List Char) : Bool :=
  unitsLessThan (qchars a) (qchars b)

/-- `QStandardItem::operator<` under the sort role of the model: the texts
compared as strings, or the reading orders compared as `int`s (`toInt()` of
data that was never set is 0). -/
def itemLessThan (role : SortRole) (l r : Item) : Bool :=
  match role with
  | .DisplayRole => codesLessThan l.text.data r.text.data
  | .READING_ORDER_ROLE => decide (l.reading_order.getD 0 < r.reading_order.getD 0)

/-- Put `x`, which stood before every member of the sorted `ys`, at its
place: behind the members smaller than it and before all others. -/
def stableInsert {α : Type} (lessThan : α → α → Bool) (x : α) : List α → List α
  | [] => [x]
  | y :: ys => if lessThan y x then y :: stableInsert lessThan x ys else x :: y :: ys

/-- The ascending stable sort `sortChildren` performs: members that do not
compare smaller either way keep their order. -/
def stableSort {α : Type} (lessThan : α → α → Bool) : List α → List α
  | [] => []
  | x :: xs => stableInsert lessThan x (stableSort lessThan xs)

/-- `folder.sortChildren( 0 )`, ascending, by the data of the current sort
role of the model. -/
def sortChildren (f : Folder) (m : Model) : Model :=
  setRows f (stableSort (itemLessThan m.sortRole) (rows f m)) m

/-- `OPFModel::SortFilesByFilenames`: `sortChildren( 0 )` on every child of
the root; an OPF or NCX item has no rows to sort. -/
def SortFilesByFilenames (m : Model) : Model :=
  m.root.foldl (fun acc child =>
    match child with
    | .folder f => sortChildren f acc
    | .file _ => acc) m

/-- `OPFModel::SortHTMLFilesByReadingOrder`. -/
def SortHTMLFilesByReadingOrder (m : Model) : Model :=
  let old_sort_role := m.sortRole
  let m := { m with sortRole := .READING_ORDER_ROLE }
  let m := sortChildren .Text m
  { m with sortRole := old_sort_role }

/-- `OPFModel::Refresh`. -/
def Refresh (book : Book) (m : Model) : Model :=
  let m := { m with m_RefreshInProgress := true }
  let m := InitializeModel book m
  let m := SortFilesByFilenames m
  let m := SortHTMLFilesByReadingOrder m
  { m with m_RefreshInProgress := false }

/-! ## Indices of resources -/

/-- `index( 0, 0 )`: row 0 under the root. -/
def firstTopLevelIndex : QModelIndex := { row := 0, column := 0, parent := .root }

/-- The `for` loop of `GetModelFolderItemIndex` from row `i` on; the result
is the row of the returned index, `none` when the loop runs to its end. -/
def GetModelFolderItemIndex_loop (folderIsRoot : Bool) (resourceIdentifier : String)
    (indexChoice : IndexChoice) (rowCount : Nat) : Nat → List Item → Option Nat
  | _, [] => none
  | i, item :: rest =>
    let identifier := item.identifier
    if !identifier.isEmpty && identifier == resourceIdentifier then
      if !folderIsRoot then
        if indexChoice == .IndexChoice_Previous && decide (i > 0) then some (i - 1)
        else if indexChoice == .IndexChoice_Next && decide (i + 1 < rowCount) then some (i + 1)
        else some i
      else some i
    else GetModelFolderItemIndex_loop folderIsRoot resourceIdentifier indexChoice rowCount (i + 1) rest

/-- `OPFModel::GetModelFolderItemIndex`; `folder` is `none` for `NULL`. -/
def GetModelFolderItemIndex (m : Model) (folder : Option Parent) (resource : Resource)
    (indexChoice : IndexChoice) : QModelIndex :=
  match folder with
  | some parent =>
    let rowCount := (children parent m).length
    match GetModelFolderItemIndex_loop (parent == .root) resource.identifier indexChoice rowCount 0
        (children parent m) with
    | some i => { row := i, column := 0, parent := parent }
    | none => firstTopLevelIndex
  | none => firstTopLevelIndex

/-- The `for` loop of `GetModelItemIndex` over the rows of the root: the
first child that is the folder item of the resource type. -/
def GetModelItemIndex_loop (resourceType : ResourceType) : List RootRow → Option Parent
  | [] => none
  | child :: rest =>
    if (child == .folder .Text && resourceType == .HTMLResourceType) ||
       (child == .folder .Images && resourceType == .ImageResourceType) ||
       (child == .folder .Styles &&
          (resourceType == .CSSResourceType || resourceType == .XPGTResourceType)) ||
       (child == .folder .Fonts && resourceType == .FontResourceType) ||
       (child == .folder .Misc && resourceType == .GenericResourceType) then
      match child with
      | .folder f => some (.folder f)
      | .file _ => none
    else GetModelItemIndex_loop resourceType rest

/-- `OPFModel::GetModelItemIndex`. -/
def GetModelItemIndex (m : Model) (resource : Resource) (indexChoice : IndexChoice) :
    QModelIndex :=
  let resourceType := resource.type
  let folder : Option Parent :=
    if resourceType == .OPFResourceType || resourceType == .NCXResourceType then some .root
    else GetModelItemIndex_loop resourceType m.root
  GetModelFolderItemIndex m folder resource indexChoice

/-! ## The `itemChanged` slot -/

/-- What `ItemChangedHandler` leaves behind: the item, the book, and the calls
it made. -/
structure Changed where
  item : Item
  book : Book
  trace : List Event

/-- `OPFModel::ItemChangedHandler`. `RenameTo book identifier name` is
`Resource::RenameTo( name )` on the resource registered under `identifier`:
its verdict and the book afterwards. The pointer `resource` keeps naming that
resource, so reading through it after the rename reads the new book. -/
def ItemChangedHandler (ext : Extensions) (RenameTo : Book → String → String → Bool × Book)
    (book : Book) (item : Item) : Changed :=
  let identifier := item.identifier
  if identifier.isEmpty then { item := item, book := book, trace := [] }
  else
    let resource := book.GetResourceByIdentifier identifier
    let old_fullpath := resource.fullPath
    let old_filename := resource.filename
    let new_filename := item.text
    if old_filename == new_filename then
      { item := { item with text := old_filename }, book := book, trace := [] }
    else
      let valid := FilenameIsValid ext book old_filename new_filename
      if !valid.1 then
        { item := { item with text := old_filename }, book := book, trace := valid.2 }
      else
        let renamed := RenameTo book identifier new_filename
        let rename_sucess := renamed.1
        let book := renamed.2
        let trace := valid.2 ++ [Event.RenameTo identifier new_filename]
        if !rename_sucess then
          { item := { item with text := old_filename }
            book := book
            trace := trace ++ [Event.DisplayStdErrorDialog "The file could not be renamed."] }
        else
          let resource := book.GetResourceByIdentifier identifier
          let update : List (String × String) :=
            [(old_fullpath, "../" ++ resource.relativePathToOEBPS)]
          { item := item
            book := book
            trace := trace ++
              [Event.PerformUniversalUpdates true book.resources update,
               Event.BookContentModified] }

/-! ## Class invariant and the words of the specification -/

/-- What the constructor establishes and every function of the file keeps:
the model sorts by the display role, and the folder items among the rows of
the root are the five members, each once, in the order they were appended. -/
def WellFormed (m : Model) : Prop :=
  m.sortRole = .DisplayRole ∧
  m.root.filter (fun child => !isNoFolderItem child) =
    [.folder .Text, .folder .Styles, .folder .Images, .folder .Fonts, .folder .Misc]

/-- The parent the specification assigns to a resource type: HTML to Text,
CSS and XPGT to Styles, Image to Images, Font to Fonts, OPF and NCX to the
root, every other type to Misc. -/
def specParent : ResourceType → Parent
  | .HTMLResourceType => .folder .Text
  | .CSSResourceType => .folder .Styles
  | .XPGTResourceType => .folder .Styles
  | .ImageResourceType => .folder .Images
  | .FontResourceType => .folder .Fonts
  | .OPFResourceType => .root
  | .NCXResourceType => .root
  | _ => .folder .Misc

/-- The reading order `InitializeModel` stores for an HTML resource: the one
the OPF reports, `NO_READING_ORDER` when the OPF reports -1. -/
def storedReadingOrder (book : Book) (resource : Resource) : Int :=
  if book.GetReadingOrder resource = -1 then NO_READING_ORDER else book.GetReadingOrder resource

/-- The item `InitializeModel` appends for a resource, as configured at the
moment it is appended. -/
def createdItem (book : Book) (resource : Resource) : Item :=
  { text := resource.filename
    identifier := resource.identifier
    reading_order :=
      if resource.type = .HTMLResourceType then some (storedReadingOrder book resource) else none
    editable := decide (specParent resource.type ≠ .root)
    dragEnabled := decide (specParent resource.type = .folder .Text ∨
      specParent resource.type = .folder .Images ∨ specParent resource.type = .folder .Misc)
    dropEnabled := false }

/-- The items of the resources of a list that the specification puts under
`parent`, in list order. -/
def placed (book : Book) (parent : Parent) (resources : List Resource) : List Item :=
  (resources.filter (fun resource => specParent resource.type = parent)).map (createdItem book)

/-- The rows under a parent that are items made for resources: all rows of
a folder, the rows of the root that are not folder items. -/
def fileItems (parent : Parent) (m : Model) : List Item :=
  match parent with
  | .root => m.root.filterMap (fun child =>
      match child with
      | .folder _ => none
      | .file item => some item)
  | .folder f => rows f m


/-- The row `GetModelFolderItemIndex` returns once the loop has found the
match at row `i` of `rowCount` rows. -/
def chosenRow (folderIsRoot : Bool) (indexChoice : IndexChoice) (rowCount i : Nat) : Nat :=
  if !folderIsRoot then
    if indexChoice == .IndexChoice_Previous && decide (i > 0) then i - 1
    else if indexChoice == .IndexChoice_Next && decide (i + 1 < rowCount) then i + 1
    else i
  else i

/-- Ascending filename order: no resource is followed by one whose filename
compares smaller. -/
def filenameAscending (rs : List Resource) : Prop :=
  rs.Pairwise (fun a b => codesLessThan b.filename.data a.filename.data = false)

/-! ## Concrete inputs -/

/-- The extension lists as the comment in `FilenameIsValid` spells them. -/
def exampleExtensions : Extensions :=
  { TEXT_EXTENSIONS := ["html", "htm", "xhtml", "xml"]
    JPG_EXTENSIONS := ["jpg", "jpeg"]
    TIFF_EXTENSIONS := ["tif", "tiff"] }

/-- The first chapter, an HTML resource. -/
def ch1Resource : Resource :=
  { identifier := "id-ch1"
    filename := "ch1.xhtml"
    type := .HTMLResourceType
    fullPath := "/book/OEBPS/Text/ch1.xhtml"
    relativePathToOEBPS := "Text/ch1.xhtml" }

/-- The second chapter, an HTML resource. -/
def ch2Resource : Resource :=
  { identifier := "id-ch2"
    filename := "ch2.xhtml"
    type := .HTMLResourceType
    fullPath := "/book/OEBPS/Text/ch2.xhtml"
    relativePathToOEBPS := "Text/ch2.xhtml" }

/-- A resource whose type is none of the eight `OPFModel.cpp` names. -/
def otherTypeResource : Resource :=
  { identifier := "id-notes"
    filename := "notes.txt"
    type := .OtherResourceType 0
    fullPath := "/book/OEBPS/Misc/notes.txt"
    relativePathToOEBPS := "Misc/notes.txt" }

/-- A book holding the two chapters and that resource; the spine lists
`ch1.xhtml` before `ch2.xhtml`. -/
def bookWithOtherType : Book :=
  { resources := [ch2Resource, ch1Resource, otherTypeResource]
    GetResourceByIdentifier := fun identifier =>
      if identifier = "id-notes" then otherTypeResource
      else if identifier = "id-ch2" then ch2Resource
      else ch1Resource
    GetUniqueFilenameVersion := fun name => name
    GetReadingOrder := fun resource => if resource.identifier = "id-ch1" then 0 else 1 }

/-- A resource of the shelf book, stored under `OEBPS/` by its filename. -/
def shelfResource (identifier filename : String) (type : ResourceType) : Resource :=
  { identifier := identifier
    filename := filename
    type := type
    fullPath := "/book/OEBPS/" ++ filename
    relativePathToOEBPS := filename }

/-- The resource list of the shelf book: four HTML files, of which the spine
lists `c.xhtml` and then `b.xhtml`, and resources of the seven other types
the file names. -/
def shelfResources : List Resource :=
  [shelfResource "id-b" "b.xhtml" .HTMLResourceType,
   shelfResource "id-d" "d.xhtml" .HTMLResourceType,
   shelfResource "id-z" "z.css" .CSSResourceType,
   shelfResource "id-c" "c.xhtml" .HTMLResourceType,
   shelfResource "id-a" "a.xhtml" .HTMLResourceType,
   shelfResource "id-opf" "content.opf" .OPFResourceType,
   shelfResource "id-m" "m.css" .CSSResourceType,
   shelfResource "id-x" "page.xpgt" .XPGTResourceType,
   shelfResource "id-img" "cover.jpg" .ImageResourceType,
   shelfResource "id-font" "serif.ttf" .FontResourceType,
   shelfResource "id-ncx" "toc.ncx" .NCXResourceType,
   shelfResource "id-bin" "data.bin" .GenericResourceType]

/-- A book with resources of all eight types the file names; `a.xhtml` and
`d.xhtml` are not in the spine. -/
def shelfBook : Book :=
  { resources := shelfResources
    GetResourceByIdentifier := fun identifier =>
      (shelfResources.find? (fun resource => resource.identifier == identifier)).getD
        (shelfResource "id-b" "b.xhtml" .HTMLResourceType)
    GetUniqueFilenameVersion := fun name => name
    GetReadingOrder := fun resource =>
      if resource.identifier = "id-c" then 0
      else if resource.identifier = "id-b" then 1
      else -1 }

/-- A book of two HTML files: the OPF reports no reading order for
`a.xhtml` and the reading order 2147483647 for `b.xhtml`. -/
def collidingBook : Book :=
  { resources :=
      [shelfResource "id-b" "b.xhtml" .HTMLResourceType,
       shelfResource "id-a" "a.xhtml" .HTMLResourceType]
    GetResourceByIdentifier := fun identifier =>
      if identifier = "id-a" then shelfResource "id-a" "a.xhtml" .HTMLResourceType
      else shelfResource "id-b" "b.xhtml" .HTMLResourceType
    GetUniqueFilenameVersion := fun name => name
    GetReadingOrder := fun resource => if resource.identifier = "id-a" then -1 else 2147483647 }

/-- A `RenameTo` that succeeds: the resource registered under the identifier
gets the new name in its paths. -/
def renameSucceeds (book : Book) (identifier new_filename : String) : Bool × Book :=
  let renamed : Resource → Resource := fun resource =>
    if resource.identifier = identifier then
      { resource with
        filename := new_filename
        fullPath := "/book/OEBPS/Text/" ++ new_filename
        relativePathToOEBPS := "Text/" ++ new_filename }
    else resource
  (true,
    { book with
      resources := book.resources.map renamed
      GetResourceByIdentifier := fun other => renamed (book.GetResourceByIdentifier other) })

/-- A `RenameTo` that fails and leaves the book alone. -/
def renameFails (book : Book) (_identifier _new_filename : String) : Bool × Book :=
  (false, book)

/-- The item of `ch1.xhtml` with a given text typed into it. -/
def itemWithText (text : String) : Item :=
  { text := text
    identifier := "id-ch1"
    reading_order := some 0
    editable := true
    dragEnabled := true
    dropEnabled := false }

/-- A model in use: three rows in the Text folder whose reading orders are
stale, and an OPF item under the root. -/
def exampleModel : Model :=
  { m_RefreshInProgress := false
    sortRole := .DisplayRole
    root := [.folder .Text, .folder .Styles, .folder .Images, .folder .Fonts, .folder .Misc,
      .file { text := "content.opf", identifier := "id-opf", reading_order := none,
              editable := false, dragEnabled := false, dropEnabled := false }]
    m_TextFolderItem :=
      [{ text := "ch2.xhtml", identifier := "id-ch2", reading_order := some 1,
         editable := true, dragEnabled := true, dropEnabled := false },
       { text := "ch1.xhtml", identifier := "id-ch1", reading_order := some 0,
         editable := true, dragEnabled := true, dropEnabled := false },
       { text := "notes.txt", identifier := "id-notes", reading_order := some 2147483647,
         editable := true, dragEnabled := true, dropEnabled := false }]
    m_StylesFolderItem := []
    m_ImagesFolderItem := []
    m_FontsFolderItem := []
    m_MiscFolderItem := []
    trace := [] }

/-! ## Facts about `ClearModel` -/

theorem UpdateHTMLReadingOrders_loop_length (book : Book) (l : List Item) (i : Nat) :
    (UpdateHTMLReadingOrders_loop book i l).1.length = l.length := by
  induction l generalizing i with
  | nil => rfl
  | cons _ t ih => simp [UpdateHTMLReadingOrders_loop, ih]

theorem RowsRemovedHandler_quiet (book : Book) (parent : Parent) (a b : Nat) (m : Model)
    (h : m.m_RefreshInProgress = true ∨ parent ≠ .folder .Text) :
    RowsRemovedHandler book parent a b m = m := by
  unfold RowsRemovedHandler
  rcases h with h | h
  · simp [h]
  · simp [h]

theorem rows_setRows (f : Folder) (l : List Item) (m : Model) (tr : List Event) :
    rows f { setRows f l m with trace := tr } = l := by
  cases f <;> rfl

theorem setRows_setRows (f : Folder) (l k : List Item) (m : Model) (tr tr2 : List Event) :
    ({ setRows f k { setRows f l m with trace := tr } with trace := tr2 } : Model) =
      { setRows f k m with trace := tr2 } := by
  cases f <;> rfl

theorem removeRow_folder_spec (book : Book) (f : Folder) (m : Model)
    (h : (rows f m).length ≠ 0) :
    ∃ l tr, removeRow book (.folder f) 0 m = { setRows f l m with trace := tr } ∧
      l.length + 1 = (rows f m).length ∧
      ((m.m_RefreshInProgress = true ∨ f ≠ .Text) → tr = m.trace) := by
  have hpos : 0 < (rows f m).length := Nat.pos_of_ne_zero h
  have hlen : ((rows f m).eraseIdx 0).length + 1 = (rows f m).length := by
    rw [List.length_eraseIdx]; simp [hpos]; omega
  simp only [removeRow, hpos, if_true]
  by_cases hq : m.m_RefreshInProgress = true ∨ f ≠ .Text
  · refine ⟨(rows f m).eraseIdx 0, m.trace, ?_, hlen, fun _ => rfl⟩
    rw [RowsRemovedHandler_quiet]
    · cases f <;> rfl
    · rcases hq with hq | hq
      · left; cases f <;> exact hq
      · right; simpa using hq
  · have hf : f = .Text := by
      by_contra hne; exact hq (Or.inr hne)
    have hflag : m.m_RefreshInProgress = false := by
      cases hm : m.m_RefreshInProgress
      · rfl
      · exact absurd (Or.inl hm) hq
    subst hf
    refine ⟨(UpdateHTMLReadingOrders_loop book 0 ((rows .Text m).eraseIdx 0)).1,
      m.trace ++ [Event.UpdateSpineOrder
        (UpdateHTMLReadingOrders_loop book 0 ((rows .Text m).eraseIdx 0)).2, Event.SetModified],
      ?_, ?_, fun hc => absurd hc hq⟩
    · simp [RowsRemovedHandler, UpdateHTMLReadingOrders, setRows, rows, hflag]
    · rw [UpdateHTMLReadingOrders_loop_length]; exact hlen

theorem ClearModel_folder_spec (book : Book) (f : Folder) (m : Model) :
    ∃ tr, ClearModel_folder book f m = { setRows f [] m with trace := tr } ∧
      ((m.m_RefreshInProgress = true ∨ f ≠ .Text) → tr = m.trace) := by
  generalize hn : (rows f m).length = n
  induction n using Nat.strong_induction_on generalizing m with
  | _ n ih =>
    rw [ClearModel_folder]
    by_cases h0 : (rows f m).length = 0
    · refine ⟨m.trace, ?_, fun _ => rfl⟩
      have hnil : rows f m = [] := List.length_eq_zero.mp h0
      simp only [h0, ne_eq, not_true_eq_false, if_false]
      rcases m with ⟨_, _, _, _, _, _, _, _, _⟩
      cases f <;> simp_all [rows, setRows]
    · simp only [ne_eq, h0, not_false_eq_true, if_true]
      obtain ⟨l, tr, heq, hlen, htr⟩ := removeRow_folder_spec book f m h0
      rw [heq]
      obtain ⟨tr2, heq2, htr2⟩ := ih l.length (by omega) { setRows f l m with trace := tr }
        (congrArg List.length (rows_setRows f l m tr))
      refine ⟨tr2, ?_, ?_⟩
      · rw [heq2, setRows_setRows]
      · intro hq
        have := htr2 (by
          rcases hq with hq | hq
          · left; cases f <;> exact hq
          · right; exact hq)
        rw [this]
        exact htr hq

theorem take_eraseIdx_self {α : Type} (l : List α) (i : Nat) :
    (l.eraseIdx i).take i = l.take i := by
  induction l generalizing i with
  | nil => simp
  | cons a t ih =>
    cases i with
    | zero => simp
    | succ k => simp [List.eraseIdx_cons_succ, ih]

theorem drop_eraseIdx_self {α : Type} (l : List α) (i : Nat) :
    (l.eraseIdx i).drop i = l.drop (i + 1) := by
  induction l generalizing i with
  | nil => simp
  | cons a t ih =>
    cases i with
    | zero => simp
    | succ k => simp [List.eraseIdx_cons_succ, ih]

theorem take_succ_get {α : Type} (l : List α) (i : Nat) (h : i < l.length) :
    l.take (i + 1) = l.take i ++ [l.get ⟨i, h⟩] := by
  induction l generalizing i with
  | nil => simp at h
  | cons a t ih =>
    cases i with
    | zero => simp
    | succ k =>
      have hk : k < t.length := by simpa using h
      show a :: t.take (k + 1) = a :: (t.take k ++ [t.get ⟨k, hk⟩])
      rw [ih k hk]

theorem ClearModel_root_spec (book : Book) (i : Nat) (m : Model) :
    ClearModel_root book i m =
      { m with root := m.root.take i ++ (m.root.drop i).filter (fun child => !isNoFolderItem child) } := by
  generalize hn : m.root.length - i = n
  induction n using Nat.strong_induction_on generalizing m i with
  | _ n ih =>
    rw [ClearModel_root]
    by_cases h : i < m.root.length
    · simp only [h, dite_true]
      have hdrop : m.root.drop i = m.root.get ⟨i, h⟩ :: m.root.drop (i + 1) :=
        List.drop_eq_getElem_cons h
      by_cases hc : isNoFolderItem (m.root.get ⟨i, h⟩) = true
      · simp only [hc, if_true]
        have hrm : removeRow book .root i m = { m with root := m.root.eraseIdx i } := by
          simp only [removeRow, h, if_true]
          rw [RowsRemovedHandler_quiet]
          right; simp
        rw [hrm, ih (m.root.length - 1 - i) (by omega) i _ (by simp [List.length_eraseIdx, h])]
        have key : (m.root.eraseIdx i).take i ++
            ((m.root.eraseIdx i).drop i).filter (fun child => !isNoFolderItem child) =
            m.root.take i ++ (m.root.drop i).filter (fun child => !isNoFolderItem child) := by
          rw [take_eraseIdx_self, drop_eraseIdx_self, hdrop, List.filter_cons]
          simp only [hc, Bool.not_true, Bool.false_eq_true, if_false]
        simp only [key]
      · have hc2 : isNoFolderItem (m.root.get ⟨i, h⟩) = false := by simpa using hc
        simp only [hc2, Bool.false_eq_true, if_false]
        rw [ih (m.root.length - (i + 1)) (by omega) (i + 1) m rfl]
        have key : m.root.take (i + 1) ++
            (m.root.drop (i + 1)).filter (fun child => !isNoFolderItem child) =
            m.root.take i ++ (m.root.drop i).filter (fun child => !isNoFolderItem child) := by
          rw [hdrop, List.filter_cons, take_succ_get _ _ h]
          simp only [hc2, Bool.not_false, if_true, List.append_assoc, List.singleton_append]
        simp only [key]
    · simp only [h, dite_false]
      have hle : m.root.length ≤ i := Nat.le_of_not_lt h
      rcases m with ⟨_, _, root, _, _, _, _, _, _⟩
      simp only [List.take_of_length_le hle, List.drop_eq_nil_of_le hle, List.filter_nil,
        List.append_nil]


theorem ClearModel_spec (book : Book) (m : Model) :
    ∃ tr, ClearModel book m =
      { m with
        root := m.root.filter (fun child => !isNoFolderItem child)
        m_TextFolderItem := []
        m_StylesFolderItem := []
        m_ImagesFolderItem := []
        m_FontsFolderItem := []
        m_MiscFolderItem := []
        trace := tr } ∧
      (m.m_RefreshInProgress = true → tr = m.trace) := by
  obtain ⟨t1, h1, q1⟩ := ClearModel_folder_spec book .Text m
  obtain ⟨t2, h2, q2⟩ := ClearModel_folder_spec book .Styles (ClearModel_folder book .Text m)
  obtain ⟨t3, h3, q3⟩ := ClearModel_folder_spec book .Images
    (ClearModel_folder book .Styles (ClearModel_folder book .Text m))
  obtain ⟨t4, h4, q4⟩ := ClearModel_folder_spec book .Fonts
    (ClearModel_folder book .Images (ClearModel_folder book .Styles (ClearModel_folder book .Text m)))
  obtain ⟨t5, h5, q5⟩ := ClearModel_folder_spec book .Misc
    (ClearModel_folder book .Fonts
      (ClearModel_folder book .Images (ClearModel_folder book .Styles (ClearModel_folder book .Text m))))
  refine ⟨t5, ?_, ?_⟩
  · unfold ClearModel
    simp only []
    rw [ClearModel_root_spec, h5, h4, h3, h2, h1]
    simp [setRows]
  · intro hq
    have e1 : t1 = m.trace := q1 (Or.inl hq)
    have e2 : t2 = t1 := (q2 (Or.inr (by decide))).trans (congrArg Model.trace h1)
    have e3 : t3 = t2 := (q3 (Or.inr (by decide))).trans (congrArg Model.trace h2)
    have e4 : t4 = t3 := (q4 (Or.inr (by decide))).trans (congrArg Model.trace h3)
    have e5 : t5 = t4 := (q5 (Or.inr (by decide))).trans (congrArg Model.trace h4)
    rw [e5, e4, e3, e2, e1]

theorem InitializeModel_body_eq (book : Book) (m : Model) (resource : Resource) :
    InitializeModel_body book m resource =
      appendRow (specParent resource.type) (createdItem book resource) m := by
  rcases resource with ⟨id, fn, ty, fp, rp⟩
  cases ty <;> simp [InitializeModel_body, specParent, createdItem, storedReadingOrder]


theorem foldl_InitializeModel_body (book : Book) (rs : List Resource) (m : Model) :
    rs.foldl (InitializeModel_body book) m =
      { m with
        root := m.root ++ (placed book .root rs).map RootRow.file
        m_TextFolderItem := m.m_TextFolderItem ++ placed book (.folder .Text) rs
        m_StylesFolderItem := m.m_StylesFolderItem ++ placed book (.folder .Styles) rs
        m_ImagesFolderItem := m.m_ImagesFolderItem ++ placed book (.folder .Images) rs
        m_FontsFolderItem := m.m_FontsFolderItem ++ placed book (.folder .Fonts) rs
        m_MiscFolderItem := m.m_MiscFolderItem ++ placed book (.folder .Misc) rs } := by
  induction rs generalizing m with
  | nil => simp [placed]
  | cons r rest ih =>
    rw [List.foldl_cons, ih, InitializeModel_body_eq]
    generalize hp : specParent r.type = p
    rcases p with _ | f
    · simp [placed, appendRow, List.filter_cons, hp]
    · cases f <;> simp [placed, appendRow, setRows, rows, List.filter_cons, hp]

theorem InitializeModel_spec (book : Book) (m : Model) :
    ∃ tr, InitializeModel book m =
      { m with
        root := m.root.filter (fun child => !isNoFolderItem child) ++
          (placed book .root book.resources).map RootRow.file
        m_TextFolderItem := placed book (.folder .Text) book.resources
        m_StylesFolderItem := placed book (.folder .Styles) book.resources
        m_ImagesFolderItem := placed book (.folder .Images) book.resources
        m_FontsFolderItem := placed book (.folder .Fonts) book.resources
        m_MiscFolderItem := placed book (.folder .Misc) book.resources
        trace := tr } ∧
      (m.m_RefreshInProgress = true → tr = m.trace) := by
  obtain ⟨tr, h, q⟩ := ClearModel_spec book m
  refine ⟨tr, ?_, q⟩
  unfold InitializeModel
  rw [foldl_InitializeModel_body, h]
  simp

theorem foldl_sort_file_rows (files : List Item) (m : Model) :
    (files.map RootRow.file).foldl (fun acc child =>
      match child with
      | .folder f => sortChildren f acc
      | .file _ => acc) m = m := by
  induction files with
  | nil => rfl
  | cons a t ih => simpa using ih

theorem SortFilesByFilenames_spec (m : Model) (files : List Item)
    (hroot : m.root =
      [.folder .Text, .folder .Styles, .folder .Images, .folder .Fonts, .folder .Misc] ++
        files.map RootRow.file) :
    SortFilesByFilenames m =
      { m with
        m_TextFolderItem := stableSort (itemLessThan m.sortRole) m.m_TextFolderItem
        m_StylesFolderItem := stableSort (itemLessThan m.sortRole) m.m_StylesFolderItem
        m_ImagesFolderItem := stableSort (itemLessThan m.sortRole) m.m_ImagesFolderItem
        m_FontsFolderItem := stableSort (itemLessThan m.sortRole) m.m_FontsFolderItem
        m_MiscFolderItem := stableSort (itemLessThan m.sortRole) m.m_MiscFolderItem } := by
  unfold SortFilesByFilenames
  rw [hroot, List.foldl_append, foldl_sort_file_rows]
  simp only [List.foldl_cons, List.foldl_nil]
  simp only [sortChildren, setRows, rows]
  rw [← hroot]

theorem Refresh_spec (book : Book) (m : Model) (h : WellFormed m) :
    Refresh book m =
      { m_RefreshInProgress := false
        sortRole := .DisplayRole
        root := [.folder .Text, .folder .Styles, .folder .Images, .folder .Fonts, .folder .Misc] ++
          (placed book .root book.resources).map RootRow.file
        m_TextFolderItem := stableSort (itemLessThan .READING_ORDER_ROLE)
          (stableSort (itemLessThan .DisplayRole) (placed book (.folder .Text) book.resources))
        m_StylesFolderItem :=
          stableSort (itemLessThan .DisplayRole) (placed book (.folder .Styles) book.resources)
        m_ImagesFolderItem :=
          stableSort (itemLessThan .DisplayRole) (placed book (.folder .Images) book.resources)
        m_FontsFolderItem :=
          stableSort (itemLessThan .DisplayRole) (placed book (.folder .Fonts) book.resources)
        m_MiscFolderItem :=
          stableSort (itemLessThan .DisplayRole) (placed book (.folder .Misc) book.resources)
        trace := m.trace } := by
  obtain ⟨hs, hr⟩ := h
  obtain ⟨tr, he, hq⟩ := InitializeModel_spec book { m with m_RefreshInProgress := true }
  have htr : tr = m.trace := hq rfl
  subst htr
  dsimp only at he
  rw [hr] at he
  unfold Refresh
  dsimp only
  rw [he, SortFilesByFilenames_spec _ (placed book .root book.resources) rfl]
  simp only [SortHTMLFilesByReadingOrder, sortChildren, setRows, rows, hs]


/-! ## Filename validation -/

theorem QFileInfo_suffix_examples :
    QFileInfo_suffix "ch1.xhtml" = "xhtml" ∧ QFileInfo_suffix "archive.tar.gz" = "gz" ∧
    QFileInfo_suffix "README" = "" ∧ QFileInfo_suffix "Text/v1.2/ch1" = "" := by
  decide

theorem firstForbidden_eq_none (l : List Char) :
    firstForbidden l = none ↔ ∀ c ∈ l, c ∉ FORBIDDEN_FILENAME_CHARS := by
  induction l with
  | nil => simp [firstForbidden]
  | cons a t ih =>
    unfold firstForbidden
    by_cases h : FORBIDDEN_FILENAME_CHARS.contains a = true
    · simp only [h, if_true]
      have hm : a ∈ FORBIDDEN_FILENAME_CHARS := by simpa using h
      simp [hm]
    · simp only [h, if_false, Bool.false_eq_true]
      have hm : a ∉ FORBIDDEN_FILENAME_CHARS := by simpa using h
      simp [ih, hm]

theorem extensionChangeRefused_eq_false (ext : Extensions) (o n : String) :
    extensionChangeRefused ext o n = false ↔
      (o = n ∨ (o ∈ ext.TEXT_EXTENSIONS ∧ n ∈ ext.TEXT_EXTENSIONS) ∨
        (o ∈ ext.JPG_EXTENSIONS ∧ n ∈ ext.JPG_EXTENSIONS) ∨
        (o ∈ ext.TIFF_EXTENSIONS ∧ n ∈ ext.TIFF_EXTENSIONS)) := by
  unfold extensionChangeRefused
  by_cases h : o = n
  · simp [h]
  · simp [h]
    tauto

/-- C1: `FilenameIsValid( old, new )` returns true exactly when the new name
is not empty, holds none of the nine forbidden characters, keeps the suffix of
the old name or changes it inside one of the three extension lists, and is
returned unchanged by `GetUniqueFilenameVersion`; otherwise it returns false. -/
theorem C1_FilenameIsValid_iff (ext : Extensions) (book : Book)
    (old_filename new_filename : String) :
    ((FilenameIsValid ext book old_filename new_filename).1 = true ↔
      (new_filename ≠ "" ∧
        (∀ c ∈ new_filename.data, c ∉ FORBIDDEN_FILENAME_CHARS) ∧
        (QFileInfo_suffix old_filename = QFileInfo_suffix new_filename ∨
          (QFileInfo_suffix old_filename ∈ ext.TEXT_EXTENSIONS ∧
            QFileInfo_suffix new_filename ∈ ext.TEXT_EXTENSIONS) ∨
          (QFileInfo_suffix old_filename ∈ ext.JPG_EXTENSIONS ∧
            QFileInfo_suffix new_filename ∈ ext.JPG_EXTENSIONS) ∨
          (QFileInfo_suffix old_filename ∈ ext.TIFF_EXTENSIONS ∧
            QFileInfo_suffix new_filename ∈ ext.TIFF_EXTENSIONS)) ∧
        book.GetUniqueFilenameVersion new_filename = new_filename)) ∧
    FORBIDDEN_FILENAME_CHARS = ['<', '>', ':', '"', '/', '\\', '|', '?', '*'] := by
  refine ⟨?_, rfl⟩
  unfold FilenameIsValid
  by_cases he : new_filename.isEmpty = true
  · have : new_filename = "" := (String.isEmpty_iff _).mp he
    rw [if_pos he]
    simp [this]
  · have hne : new_filename ≠ "" := fun h => he ((String.isEmpty_iff _).mpr h)
    simp only [he, if_false, Bool.false_eq_true]
    cases hf : firstForbidden new_filename.data with
    | some c =>
      have : ¬ ∀ c ∈ new_filename.data, c ∉ FORBIDDEN_FILENAME_CHARS := by
        rw [← firstForbidden_eq_none, hf]; simp
      simp [this]
    | none =>
      have hall := (firstForbidden_eq_none _).mp hf
      cases hx : extensionChangeRefused ext (QFileInfo_suffix old_filename)
          (QFileInfo_suffix new_filename) with
      | true =>
        have : ¬ (QFileInfo_suffix old_filename = QFileInfo_suffix new_filename ∨
          (QFileInfo_suffix old_filename ∈ ext.TEXT_EXTENSIONS ∧
            QFileInfo_suffix new_filename ∈ ext.TEXT_EXTENSIONS) ∨
          (QFileInfo_suffix old_filename ∈ ext.JPG_EXTENSIONS ∧
            QFileInfo_suffix new_filename ∈ ext.JPG_EXTENSIONS) ∨
          (QFileInfo_suffix old_filename ∈ ext.TIFF_EXTENSIONS ∧
            QFileInfo_suffix new_filename ∈ ext.TIFF_EXTENSIONS)) := by
          rw [← extensionChangeRefused_eq_false, hx]; simp
        simp [this]
      | false =>
        have hext := (extensionChangeRefused_eq_false _ _ _).mp hx
        by_cases hu : book.GetUniqueFilenameVersion new_filename = new_filename
        · constructor
          · intro _
            exact ⟨hne, hall, hext, hu⟩
          · intro _
            simp [hu]
        · have hu2 : ¬ new_filename = book.GetUniqueFilenameVersion new_filename :=
            fun h => hu h.symm
          simp [hu, hu2]


/-! ## The `itemChanged` slot -/

theorem FilenameIsValid_trace (ext : Extensions) (book : Book) (o n : String) :
    ((FilenameIsValid ext book o n).1 = true → (FilenameIsValid ext book o n).2 = []) ∧
    (∀ e ∈ (FilenameIsValid ext book o n).2, ∃ message, e = Event.DisplayStdErrorDialog message) := by
  unfold FilenameIsValid
  split
  · simp
  · split
    · simp
    · dsimp only
      split
      · simp
      · split <;> simp

/-- C2: a rename that is refused leaves no mark. For an item with a
non-empty identifier whose text equals the old filename, or fails
`FilenameIsValid`, or whose `RenameTo` fails, the handler puts the old
filename back as the text and neither calls `PerformUniversalUpdates` nor
emits `BookContentModified`; in the first two cases `RenameTo` is not called
and the book is untouched. For an item with an empty identifier the handler
changes nothing. -/
theorem C2_refused_rename_is_undone (ext : Extensions)
    (RenameTo : Book → String → String → Bool × Book) (book : Book) (item : Item) :
    (item.identifier ≠ "" →
      (item.text = (book.GetResourceByIdentifier item.identifier).filename ∨
        (FilenameIsValid ext book (book.GetResourceByIdentifier item.identifier).filename
          item.text).1 = false ∨
        (RenameTo book item.identifier item.text).1 = false) →
      (ItemChangedHandler ext RenameTo book item).item =
          { item with text := (book.GetResourceByIdentifier item.identifier).filename } ∧
        (∀ in_place resources update, Event.PerformUniversalUpdates in_place resources update ∉
          (ItemChangedHandler ext RenameTo book item).trace) ∧
        Event.BookContentModified ∉ (ItemChangedHandler ext RenameTo book item).trace) ∧
    (item.identifier ≠ "" →
      (item.text = (book.GetResourceByIdentifier item.identifier).filename ∨
        (FilenameIsValid ext book (book.GetResourceByIdentifier item.identifier).filename
          item.text).1 = false) →
      (∀ identifier name, Event.RenameTo identifier name ∉
          (ItemChangedHandler ext RenameTo book item).trace) ∧
        (ItemChangedHandler ext RenameTo book item).book = book) ∧
    (item.identifier = "" →
      (ItemChangedHandler ext RenameTo book item).item = item ∧
        (ItemChangedHandler ext RenameTo book item).book = book ∧
        (ItemChangedHandler ext RenameTo book item).trace = []) := by
  have hdlg := (FilenameIsValid_trace ext book
    (book.GetResourceByIdentifier item.identifier).filename item.text).2
  have hnil := (FilenameIsValid_trace ext book
    (book.GetResourceByIdentifier item.identifier).filename item.text).1
  refine ⟨?_, ?_, ?_⟩
  · intro hid hcase
    have he : item.identifier.isEmpty = false := by
      cases h : item.identifier.isEmpty
      · rfl
      · exact absurd ((String.isEmpty_iff _).mp h) hid
    unfold ItemChangedHandler
    simp only [he, Bool.false_eq_true, if_false]
    by_cases heq : (book.GetResourceByIdentifier item.identifier).filename = item.text
    · simp [heq]
    · have hbeq : ((book.GetResourceByIdentifier item.identifier).filename == item.text) = false := by
        simpa using heq
      simp only [hbeq, Bool.false_eq_true, if_false]
      cases hv : (FilenameIsValid ext book (book.GetResourceByIdentifier item.identifier).filename
          item.text).1
      · simp only [Bool.not_false, if_true, true_and]
        constructor
        · intro a b c hm
          obtain ⟨msg, hmsg⟩ := hdlg _ hm
          cases hmsg
        · intro hm
          obtain ⟨msg, hmsg⟩ := hdlg _ hm
          cases hmsg
      · have hr : (RenameTo book item.identifier item.text).1 = false := by
          rcases hcase with h | h | h
          · exact absurd h.symm heq
          · rw [hv] at h; cases h
          · exact h
        simp [hr, hnil hv]
  · intro hid hcase
    have he : item.identifier.isEmpty = false := by
      cases h : item.identifier.isEmpty
      · rfl
      · exact absurd ((String.isEmpty_iff _).mp h) hid
    unfold ItemChangedHandler
    simp only [he, Bool.false_eq_true, if_false]
    by_cases heq : (book.GetResourceByIdentifier item.identifier).filename = item.text
    · simp [heq]
    · have hbeq : ((book.GetResourceByIdentifier item.identifier).filename == item.text) = false := by
        simpa using heq
      have hv : (FilenameIsValid ext book (book.GetResourceByIdentifier item.identifier).filename
          item.text).1 = false := by
        rcases hcase with h | h
        · exact absurd h.symm heq
        · exact h
      simp only [hbeq, Bool.false_eq_true, if_false, hv, Bool.not_false, if_true, and_true]
      intro a b hm
      obtain ⟨msg, hmsg⟩ := hdlg _ hm
      cases hmsg
  · intro hid
    have he : item.identifier.isEmpty = true := (String.isEmpty_iff _).mpr hid
    unfold ItemChangedHandler
    simp only [he, if_true, and_self]

/-- C2 at a concrete item: typing `ch1.jpg` into the item of `ch1.xhtml` is
refused by `FilenameIsValid`, the text goes back to `ch1.xhtml`, and nothing
is announced; so it is when `RenameTo` fails on `intro.html`; an item without
identifier is left alone. -/
theorem C2_refused_rename_witness :
    (itemWithText "ch1.jpg").identifier ≠ "" ∧
    (FilenameIsValid exampleExtensions bookWithOtherType "ch1.xhtml" "ch1.jpg").1 = false ∧
    (ItemChangedHandler exampleExtensions renameSucceeds bookWithOtherType
      (itemWithText "ch1.jpg")).item = itemWithText "ch1.xhtml" ∧
    Event.BookContentModified ∉ (ItemChangedHandler exampleExtensions renameSucceeds
      bookWithOtherType (itemWithText "ch1.jpg")).trace ∧
    (ItemChangedHandler exampleExtensions renameFails bookWithOtherType
      (itemWithText "intro.html")).item = itemWithText "ch1.xhtml" ∧
    (ItemChangedHandler exampleExtensions renameSucceeds bookWithOtherType
      { itemWithText "Text" with identifier := "" }).trace = [] :=
  ⟨by decide, by decide,
    ((C2_refused_rename_is_undone exampleExtensions renameSucceeds bookWithOtherType
      (itemWithText "ch1.jpg")).1 (by decide) (Or.inr (Or.inl (by decide)))).1,
    ((C2_refused_rename_is_undone exampleExtensions renameSucceeds bookWithOtherType
      (itemWithText "ch1.jpg")).1 (by decide) (Or.inr (Or.inl (by decide)))).2.2,
    ((C2_refused_rename_is_undone exampleExtensions renameFails bookWithOtherType
      (itemWithText "intro.html")).1 (by decide) (Or.inr (Or.inr rfl))).1,
    ((C2_refused_rename_is_undone exampleExtensions renameSucceeds bookWithOtherType
      { itemWithText "Text" with identifier := "" }).2.2 rfl).2.2⟩

/-- C3: a rename that goes through. For an item with a non-empty identifier
whose text differs from the old filename and passes `FilenameIsValid`, and
whose `RenameTo` succeeds, the handler's calls are, in this order: `RenameTo`,
one `PerformUniversalUpdates` over the resource list of the book with the
one-entry map from the full path before the rename to `"../"` followed by the
relative path after it, and the emission of `BookContentModified`; the item
keeps the new filename as its text. -/
theorem C3_successful_rename (ext : Extensions)
    (RenameTo : Book → String → String → Bool × Book) (book : Book) (item : Item)
    (hid : item.identifier ≠ "")
    (hnew : item.text ≠ (book.GetResourceByIdentifier item.identifier).filename)
    (hvalid : (FilenameIsValid ext book (book.GetResourceByIdentifier item.identifier).filename
      item.text).1 = true)
    (hrenamed : (RenameTo book item.identifier item.text).1 = true) :
    (ItemChangedHandler ext RenameTo book item).trace =
      [Event.RenameTo item.identifier item.text,
       Event.PerformUniversalUpdates true (RenameTo book item.identifier item.text).2.resources
         [((book.GetResourceByIdentifier item.identifier).fullPath,
           "../" ++ ((RenameTo book item.identifier item.text).2.GetResourceByIdentifier
             item.identifier).relativePathToOEBPS)],
       Event.BookContentModified] ∧
    (ItemChangedHandler ext RenameTo book item).item = item ∧
    (ItemChangedHandler ext RenameTo book item).book = (RenameTo book item.identifier item.text).2 := by
  have hnil := (FilenameIsValid_trace ext book
    (book.GetResourceByIdentifier item.identifier).filename item.text).1 hvalid
  have he : item.identifier.isEmpty = false := by
    cases h : item.identifier.isEmpty
    · rfl
    · exact absurd ((String.isEmpty_iff _).mp h) hid
  have hbeq : ((book.GetResourceByIdentifier item.identifier).filename == item.text) = false := by
    simpa using fun h => hnew h.symm
  unfold ItemChangedHandler
  simp [he, hbeq, hvalid, hrenamed, hnil]


/-- C3 at a concrete item: renaming `ch1.xhtml` to `intro.html`. -/
theorem C3_successful_rename_witness :
    (itemWithText "intro.html").identifier ≠ "" ∧
    (FilenameIsValid exampleExtensions bookWithOtherType "ch1.xhtml" "intro.html").1 = true ∧
    (ItemChangedHandler exampleExtensions renameSucceeds bookWithOtherType
      (itemWithText "intro.html")).trace =
      [Event.RenameTo "id-ch1" "intro.html",
       Event.PerformUniversalUpdates true
         [ch2Resource,
          { identifier := "id-ch1", filename := "intro.html", type := .HTMLResourceType,
            fullPath := "/book/OEBPS/Text/intro.html",
            relativePathToOEBPS := "Text/intro.html" },
          otherTypeResource]
         [("/book/OEBPS/Text/ch1.xhtml", "../Text/intro.html")],
       Event.BookContentModified] ∧
    (ItemChangedHandler exampleExtensions renameSucceeds bookWithOtherType
      (itemWithText "intro.html")).item = itemWithText "intro.html" :=
  ⟨by decide, by decide,
    (C3_successful_rename exampleExtensions renameSucceeds bookWithOtherType
      (itemWithText "intro.html") (by decide) (by decide) (by decide) rfl).1,
    (C3_successful_rename exampleExtensions renameSucceeds bookWithOtherType
      (itemWithText "intro.html") (by decide) (by decide) (by decide) rfl).2.1⟩

/-! ## Folder classification -/

theorem isNoFolderItem_folder (f : Folder) : isNoFolderItem (.folder f) = false := by
  cases f <;> decide

theorem isNoFolderItem_file (item : Item) : isNoFolderItem (.file item) = true := by
  simp [isNoFolderItem]

theorem filterMap_file_of_folders (root : List RootRow) :
    (root.filter (fun child => !isNoFolderItem child)).filterMap (fun child =>
      match child with
      | .folder _ => none
      | .file item => some item) = [] := by
  induction root with
  | nil => rfl
  | cons a t ih =>
    cases a with
    | folder f =>
      rw [List.filter_cons]
      simp only [isNoFolderItem_folder, Bool.not_false, if_true, List.filterMap_cons]
      exact ih
    | file item =>
      rw [List.filter_cons]
      simp only [isNoFolderItem_file, Bool.not_true, Bool.false_eq_true, if_false]
      exact ih

theorem filterMap_file_of_files (files : List Item) :
    (files.map RootRow.file).filterMap (fun child =>
      match child with
      | .folder _ => none
      | .file item => some item) = files := by
  induction files with
  | nil => rfl
  | cons a t ih =>
    rw [List.map_cons, List.filterMap_cons]
    simp only []
    rw [ih]

theorem fileItems_root_cleared (root : List RootRow) (files : List Item) (m : Model)
    (h : m.root = root.filter (fun child => !isNoFolderItem child) ++ files.map RootRow.file) :
    fileItems .root m = files := by
  unfold fileItems
  simp only [h, List.filterMap_append]
  rw [filterMap_file_of_folders, filterMap_file_of_files, List.nil_append]

theorem placed_lengths (book : Book) (rs : List Resource) :
    (placed book .root rs).length + (placed book (.folder .Text) rs).length +
      (placed book (.folder .Styles) rs).length + (placed book (.folder .Images) rs).length +
      (placed book (.folder .Fonts) rs).length + (placed book (.folder .Misc) rs).length =
      rs.length := by
  induction rs with
  | nil => rfl
  | cons r t ih =>
    simp only [placed, List.length_map] at ih ⊢
    generalize hp : specParent r.type = p
    rcases p with _ | f
    · simp [List.filter_cons, hp]; omega
    · cases f <;> simp [List.filter_cons, hp] <;> omega

theorem fileItems_InitializeModel (book : Book) (m : Model) (parent : Parent) :
    fileItems parent (InitializeModel book m) = placed book parent book.resources := by
  obtain ⟨tr, he, _⟩ := InitializeModel_spec book m
  rcases parent with _ | f
  · exact fileItems_root_cleared m.root _ _ (by rw [he])
  · rw [he]; cases f <;> rfl

/-- C4: after `InitializeModel` the file items under every parent are exactly
the items of the resources whose type the classification sends there, one
item per resource in list order, each carrying the identifier and the
filename of its resource: HTML under Text, CSS and XPGT under Styles, Image
under Images, Font under Fonts, OPF and NCX under the root beside the folder
items, every other type under Misc. The file items number as many as the
resources, whatever the model held before. -/
theorem C4_InitializeModel_classifies (book : Book) (m : Model) :
    (∀ parent, fileItems parent (InitializeModel book m) = placed book parent book.resources) ∧
    (∀ parent, placed book parent book.resources =
      (book.resources.filter (fun resource => specParent resource.type = parent)).map
        (createdItem book)) ∧
    (∀ resource, (createdItem book resource).identifier = resource.identifier ∧
      (createdItem book resource).text = resource.filename) ∧
    (specParent .HTMLResourceType = .folder .Text ∧ specParent .CSSResourceType = .folder .Styles ∧
      specParent .XPGTResourceType = .folder .Styles ∧
      specParent .ImageResourceType = .folder .Images ∧
      specParent .FontResourceType = .folder .Fonts ∧ specParent .OPFResourceType = .root ∧
      specParent .NCXResourceType = .root ∧ specParent .GenericResourceType = .folder .Misc ∧
      ∀ tag, specParent (.OtherResourceType tag) = .folder .Misc) ∧
    (fileItems .root (InitializeModel book m)).length +
      (fileItems (.folder .Text) (InitializeModel book m)).length +
      (fileItems (.folder .Styles) (InitializeModel book m)).length +
      (fileItems (.folder .Images) (InitializeModel book m)).length +
      (fileItems (.folder .Fonts) (InitializeModel book m)).length +
      (fileItems (.folder .Misc) (InitializeModel book m)).length = book.resources.length := by
  obtain ⟨tr, he, _⟩ := InitializeModel_spec book m
  have hall : ∀ parent, fileItems parent (InitializeModel book m) =
      placed book parent book.resources := by
    intro parent
    rcases parent with _ | f
    · exact fileItems_root_cleared m.root _ _ (by rw [he])
    · rw [he]; cases f <;> rfl
  refine ⟨hall, fun _ => rfl, fun _ => ⟨rfl, rfl⟩,
    ⟨rfl, rfl, rfl, rfl, rfl, rfl, rfl, rfl, fun _ => rfl⟩, ?_⟩
  simp only [hall]
  exact placed_lengths book book.resources


/-! ## Reading orders after a row removal -/

theorem UpdateHTMLReadingOrders_loop_get (book : Book) (l : List Item) (i j : Nat)
    (hj : j < (UpdateHTMLReadingOrders_loop book i l).1.length) :
    ((UpdateHTMLReadingOrders_loop book i l).1.get ⟨j, hj⟩).reading_order =
      some ((i + j : Nat) : Int) := by
  induction l generalizing i j with
  | nil => simp [UpdateHTMLReadingOrders_loop] at hj
  | cons a t ih =>
    cases j with
    | zero => simp [UpdateHTMLReadingOrders_loop]
    | succ k =>
      have hk : k < (UpdateHTMLReadingOrders_loop book (i + 1) t).1.length := by
        simpa [UpdateHTMLReadingOrders_loop] using hj
      have := ih (i + 1) k hk
      simp only [UpdateHTMLReadingOrders_loop, List.get_eq_getElem, List.getElem_cons_succ] at this ⊢
      rw [this]
      congr 2
      omega

theorem UpdateHTMLReadingOrders_loop_htmls (book : Book) (l : List Item) (i : Nat) :
    (UpdateHTMLReadingOrders_loop book i l).2 =
      (l.map (fun item => book.GetResourceByIdentifier item.identifier)).filter
        (fun resource => resource.type = .HTMLResourceType) := by
  induction l generalizing i with
  | nil => rfl
  | cons a t ih =>
    simp only [UpdateHTMLReadingOrders_loop, List.map_cons, List.filter_cons, ih]
    by_cases h : (book.GetResourceByIdentifier a.identifier).type = .HTMLResourceType
    · simp [h]
    · simp [h]

theorem UpdateHTMLReadingOrders_loop_same_items (book : Book) (l : List Item) (i : Nat) :
    (UpdateHTMLReadingOrders_loop book i l).1.map (fun item => { item with reading_order := none }) =
      l.map (fun item => { item with reading_order := none }) := by
  induction l generalizing i with
  | nil => rfl
  | cons a t ih => simp [UpdateHTMLReadingOrders_loop, ih]

/-- C5: when rows have been removed from the Text folder and no refresh is
in progress, `RowsRemovedHandler` runs `UpdateHTMLReadingOrders`: the Text
folder keeps its items in their order, the item at row `i` gets reading order
`i`, the OPF receives through `UpdateSpineOrder` the HTML resources of the
rows from top to bottom, and the book is then marked modified. A `removeRow`
on the Text folder does all this on the rows that remain. -/
theorem C5_reading_order_follows_rows (book : Book) (m : Model) (first last : Nat)
    (hquiet : m.m_RefreshInProgress = false) :
    RowsRemovedHandler book (.folder .Text) first last m = UpdateHTMLReadingOrders book m ∧
    (RowsRemovedHandler book (.folder .Text) first last m).m_TextFolderItem.length =
      m.m_TextFolderItem.length ∧
    (∀ i (hi : i < (RowsRemovedHandler book (.folder .Text) first last m).m_TextFolderItem.length),
      ((RowsRemovedHandler book (.folder .Text) first last m).m_TextFolderItem.get ⟨i, hi⟩).reading_order
        = some (i : Int)) ∧
    (RowsRemovedHandler book (.folder .Text) first last m).m_TextFolderItem.map
        (fun item => { item with reading_order := none }) =
      m.m_TextFolderItem.map (fun item => { item with reading_order := none }) ∧
    (RowsRemovedHandler book (.folder .Text) first last m).trace =
      m.trace ++
        [Event.UpdateSpineOrder
          ((m.m_TextFolderItem.map (fun item => book.GetResourceByIdentifier item.identifier)).filter
            (fun resource => resource.type = .HTMLResourceType)),
         Event.SetModified] ∧
    (∀ row, row < m.m_TextFolderItem.length →
      removeRow book (.folder .Text) row m =
        UpdateHTMLReadingOrders book { m with m_TextFolderItem := m.m_TextFolderItem.eraseIdx row }) := by
  have hrun : RowsRemovedHandler book (.folder .Text) first last m =
      UpdateHTMLReadingOrders book m := by
    simp [RowsRemovedHandler, hquiet]
  refine ⟨hrun, ?_, ?_, ?_, ?_, ?_⟩
  · rw [hrun]
    exact UpdateHTMLReadingOrders_loop_length book _ 0
  · intro i hi
    have := UpdateHTMLReadingOrders_loop_get book m.m_TextFolderItem 0 i (by
      simpa [hrun, UpdateHTMLReadingOrders] using hi)
    simp only [Nat.zero_add] at this
    simpa [hrun, UpdateHTMLReadingOrders] using this
  · rw [hrun]
    exact UpdateHTMLReadingOrders_loop_same_items book _ 0
  · rw [hrun]
    simp [UpdateHTMLReadingOrders, UpdateHTMLReadingOrders_loop_htmls]
  · intro row hrow
    simp [removeRow, rows, setRows, hrow, RowsRemovedHandler, hquiet]


/-- C5 at a concrete model: after a removal under the Text folder of the
model in use, the three rows are still three and the spine receives the HTML
resources of the rows from top to bottom. -/
theorem C5_reading_order_witness :
    exampleModel.m_RefreshInProgress = false ∧
    (RowsRemovedHandler bookWithOtherType (.folder .Text) 0 0 exampleModel).m_TextFolderItem.length
      = 3 ∧
    (RowsRemovedHandler bookWithOtherType (.folder .Text) 0 0 exampleModel).trace =
      [Event.UpdateSpineOrder [ch2Resource, ch1Resource], Event.SetModified] :=
  ⟨rfl, (C5_reading_order_follows_rows bookWithOtherType exampleModel 0 0 rfl).2.1,
    (C5_reading_order_follows_rows bookWithOtherType exampleModel 0 0 rfl).2.2.2.2.1⟩

/-! ## Neighbour selection -/

theorem GetModelFolderItemIndex_loop_found (folderIsRoot : Bool) (rid : String)
    (indexChoice : IndexChoice) (rowCount : Nat) (l : List Item) (k i : Nat) (hi : i < l.length)
    (hne : rid ≠ "") (hmatch : (l.get ⟨i, hi⟩).identifier = rid)
    (hfirst : ∀ j (hj : j < i), (l.get ⟨j, Nat.lt_trans hj hi⟩).identifier ≠ rid) :
    GetModelFolderItemIndex_loop folderIsRoot rid indexChoice rowCount k l =
      some (chosenRow folderIsRoot indexChoice rowCount (k + i)) := by
  induction l generalizing k i with
  | nil => simp at hi
  | cons a t ih =>
    cases i with
    | zero =>
      have ha : a.identifier = rid := by simpa using hmatch
      have he : a.identifier.isEmpty = false := by
        cases h : a.identifier.isEmpty
        · rfl
        · exact absurd (ha.symm.trans ((String.isEmpty_iff _).mp h)) hne
      have hc : (!a.identifier.isEmpty && a.identifier == rid) = true := by
        rw [he, ha]; simp
      unfold GetModelFolderItemIndex_loop
      simp only [hc, if_true, Nat.add_zero]
      unfold chosenRow
      split_ifs <;> rfl
    | succ n =>
      have h0 : a.identifier ≠ rid := by simpa using hfirst 0 (Nat.succ_pos n)
      have hn : n < t.length := by simpa using hi
      have hm : (t.get ⟨n, hn⟩).identifier = rid := by simpa using hmatch
      have hf : ∀ j (hj : j < n), (t.get ⟨j, Nat.lt_trans hj hn⟩).identifier ≠ rid := by
        intro j hj
        simpa using hfirst (j + 1) (Nat.succ_lt_succ hj)
      unfold GetModelFolderItemIndex_loop
      have hb : (a.identifier == rid) = false := by simpa using h0
      simp only [hb, Bool.and_false, Bool.false_eq_true, if_false]
      rw [ih (k + 1) n hn hm hf]
      congr 2
      omega

theorem GetModelFolderItemIndex_loop_none (folderIsRoot : Bool) (rid : String)
    (indexChoice : IndexChoice) (rowCount : Nat) (l : List Item) (k : Nat)
    (h : ∀ item ∈ l, item.identifier = "" ∨ item.identifier ≠ rid) :
    GetModelFolderItemIndex_loop folderIsRoot rid indexChoice rowCount k l = none := by
  induction l generalizing k with
  | nil => rfl
  | cons a t ih =>
    unfold GetModelFolderItemIndex_loop
    have hc : (!a.identifier.isEmpty && a.identifier == rid) = false := by
      rcases h a (List.mem_cons_self a t) with h1 | h1
      · have : a.identifier.isEmpty = true := (String.isEmpty_iff _).mpr h1
        rw [this]; rfl
      · have : (a.identifier == rid) = false := by simpa using h1
        simp [this]
    simp only [hc, Bool.false_eq_true, if_false]
    exact ih (k + 1) (fun item hm => h item (List.mem_cons_of_mem a hm))

/-- C8: `GetModelFolderItemIndex` answers with a row of the folder. When
the first item of the folder whose non-empty identifier is the resource's
stands at row `i` of `n` rows, the row returned is `i` for
`IndexChoice_Current`; in a folder other than the root it is `max (i - 1) 0`
for `IndexChoice_Previous` and `min (i + 1) (n - 1)` for `IndexChoice_Next`;
in the root it is `i` for every choice; and it is always below `n`. With no
folder, or no matching item, the answer is `index( 0, 0 )`. -/
theorem C8_neighbour_row_is_clamped (m : Model) (resource : Resource) :
    (∀ (parent : Parent) (i : Nat) (hi : i < (children parent m).length),
      ((children parent m).get ⟨i, hi⟩).identifier ≠ "" →
      ((children parent m).get ⟨i, hi⟩).identifier = resource.identifier →
      (∀ j (hj : j < i),
        ¬ (((children parent m).get ⟨j, Nat.lt_trans hj hi⟩).identifier ≠ "" ∧
          ((children parent m).get ⟨j, Nat.lt_trans hj hi⟩).identifier = resource.identifier)) →
      GetModelFolderItemIndex m (some parent) resource .IndexChoice_Current =
          { row := i, column := 0, parent := parent } ∧
        (parent ≠ .root →
          (∃ r, GetModelFolderItemIndex m (some parent) resource .IndexChoice_Previous =
              { row := r, column := 0, parent := parent } ∧ (r : Int) = max ((i : Int) - 1) 0) ∧
          GetModelFolderItemIndex m (some parent) resource .IndexChoice_Next =
            { row := min (i + 1) ((children parent m).length - 1), column := 0, parent := parent }) ∧
        (parent = .root → ∀ indexChoice,
          GetModelFolderItemIndex m (some parent) resource indexChoice =
            { row := i, column := 0, parent := parent }) ∧
        (∀ indexChoice,
          (GetModelFolderItemIndex m (some parent) resource indexChoice).parent = parent ∧
          (GetModelFolderItemIndex m (some parent) resource indexChoice).row <
            (children parent m).length)) ∧
    (∀ indexChoice, GetModelFolderItemIndex m none resource indexChoice =
      { row := 0, column := 0, parent := .root }) ∧
    (∀ (parent : Parent) indexChoice,
      (∀ item ∈ children parent m, item.identifier = "" ∨ item.identifier ≠ resource.identifier) →
      GetModelFolderItemIndex m (some parent) resource indexChoice =
        { row := 0, column := 0, parent := .root }) := by
  refine ⟨?_, fun _ => rfl, ?_⟩
  · intro parent i hi hne hmatch hfirst
    have hrid : resource.identifier ≠ "" := hmatch ▸ hne
    have hfirst2 : ∀ j (hj : j < i),
        ((children parent m).get ⟨j, Nat.lt_trans hj hi⟩).identifier ≠ resource.identifier := by
      intro j hj heq
      exact hfirst j hj ⟨heq ▸ hrid, heq⟩
    have key : ∀ indexChoice, GetModelFolderItemIndex m (some parent) resource indexChoice =
        { row := chosenRow (parent == .root) indexChoice (children parent m).length i,
          column := 0, parent := parent } := by
      intro indexChoice
      unfold GetModelFolderItemIndex
      simp only []
      rw [GetModelFolderItemIndex_loop_found (parent == .root) resource.identifier indexChoice
        (children parent m).length (children parent m) 0 i hi hrid hmatch hfirst2]
      simp
    refine ⟨?_, ?_, ?_, ?_⟩
    · rw [key]
      unfold chosenRow
      cases (parent == Parent.root) <;> simp
    · intro hp
      have hb : (parent == Parent.root) = false := by simpa using hp
      constructor
      · refine ⟨chosenRow (parent == .root) .IndexChoice_Previous (children parent m).length i,
          key _, ?_⟩
        unfold chosenRow
        rw [hb]
        by_cases h0 : i > 0
        · simp [h0]
          omega
        · have : i = 0 := by omega
          subst this
          simp
      · rw [key]
        unfold chosenRow
        rw [hb]
        by_cases h1 : i + 1 < (children parent m).length
        · have : min (i + 1) ((children parent m).length - 1) = i + 1 := by omega
          simp [h1, this]
        · have : min (i + 1) ((children parent m).length - 1) = i := by omega
          simp [h1, this]
    · intro hp indexChoice
      have hb : (parent == Parent.root) = true := by simpa using hp
      rw [key]
      unfold chosenRow
      rw [hb]
      rfl
    · intro indexChoice
      rw [key]
      refine ⟨rfl, ?_⟩
      show chosenRow (parent == .root) indexChoice (children parent m).length i < _
      unfold chosenRow
      split_ifs <;> first | exact hi | omega | (simp at *; omega)
  · intro parent indexChoice hnone
    unfold GetModelFolderItemIndex
    simp only []
    rw [GetModelFolderItemIndex_loop_none _ _ _ _ _ _ hnone]
    rfl

/-- C8 at the middle row of the Text folder of the model in use. -/
theorem C8_neighbour_row_witness :
    GetModelFolderItemIndex exampleModel (some (.folder .Text))
        { otherTypeResource with identifier := "id-ch1" } .IndexChoice_Current =
      { row := 1, column := 0, parent := .folder .Text } ∧
    GetModelFolderItemIndex exampleModel (some (.folder .Text))
        { otherTypeResource with identifier := "id-ch1" } .IndexChoice_Next =
      { row := 2, column := 0, parent := .folder .Text } ∧
    GetModelFolderItemIndex exampleModel (some (.folder .Text))
        { otherTypeResource with identifier := "id-none" } .IndexChoice_Next =
      { row := 0, column := 0, parent := .root } :=
  ⟨((C8_neighbour_row_is_clamped exampleModel
      { otherTypeResource with identifier := "id-ch1" }).1 (.folder .Text) 1 (by decide)
      (by decide) (by decide) (by decide)).1,
    (((C8_neighbour_row_is_clamped exampleModel
      { otherTypeResource with identifier := "id-ch1" }).1 (.folder .Text) 1 (by decide)
      (by decide) (by decide) (by decide)).2.1 (by decide)).2,
    (C8_neighbour_row_is_clamped exampleModel
      { otherTypeResource with identifier := "id-none" }).2.2 (.folder .Text) .IndexChoice_Next
      (by decide)⟩

/-! ## A refresh is silent -/

theorem SortFilesByFilenames_foldl_trace (l : List RootRow) (m : Model) :
    (l.foldl (fun acc child =>
      match child with
      | .folder f => sortChildren f acc
      | .file _ => acc) m).trace = m.trace ∧
    (l.foldl (fun acc child =>
      match child with
      | .folder f => sortChildren f acc
      | .file _ => acc) m).sortRole = m.sortRole := by
  induction l generalizing m with
  | nil => exact ⟨rfl, rfl⟩
  | cons a t ih =>
    rw [List.foldl_cons]
    cases a with
    | folder f =>
      have := ih (sortChildren f m)
      cases f <;> exact this
    | file item => exact ih m

/-- C9: a refresh never reaches the spine or the modified flag. While
`m_RefreshInProgress` is set, and for a removal under any parent but the Text
folder, `RowsRemovedHandler` returns the model as it got it, so a `removeRow`
under the flag only takes the row away. `ClearModel` run under the flag and
the whole of `Refresh`, from any model, add no call to the trace, so neither `UpdateSpineOrder` nor `SetModified` is called, and
`m_RefreshInProgress` is false once `Refresh` has returned. -/
theorem C9_refresh_is_silent (book : Book) (m : Model) :
    (∀ (parent : Parent) (first last : Nat),
      (m.m_RefreshInProgress = true ∨ parent ≠ .folder .Text) →
      RowsRemovedHandler book parent first last m = m) ∧
    (m.m_RefreshInProgress = true → ∀ (f : Folder) (row : Nat), row < (rows f m).length →
      removeRow book (.folder f) row m = setRows f ((rows f m).eraseIdx row) m) ∧
    (m.m_RefreshInProgress = true → (ClearModel book m).trace = m.trace) ∧
    (Refresh book m).trace = m.trace ∧
    (Refresh book m).m_RefreshInProgress = false := by
  refine ⟨fun parent first last h => RowsRemovedHandler_quiet book parent first last m h, ?_, ?_,
    ?_, rfl⟩
  · intro h f row hrow
    simp only [removeRow, hrow, if_true]
    apply RowsRemovedHandler_quiet
    left
    cases f <;> exact h
  · intro h
    obtain ⟨tr, he, hq⟩ := ClearModel_spec book m
    rw [he]
    exact hq h
  · obtain ⟨tr, he, hq⟩ := InitializeModel_spec book { m with m_RefreshInProgress := true }
    have htr : tr = m.trace := hq rfl
    unfold Refresh SortHTMLFilesByReadingOrder
    simp only [sortChildren, setRows]
    unfold SortFilesByFilenames
    rw [(SortFilesByFilenames_foldl_trace _ _).1, he, htr]


/-- C9 at a removal under the Styles folder of the model in use. -/
theorem C9_refresh_is_silent_witness :
    (exampleModel.m_RefreshInProgress = true ∨ Parent.folder .Styles ≠ .folder .Text) ∧
    RowsRemovedHandler bookWithOtherType (.folder .Styles) 0 0 exampleModel = exampleModel ∧
    (Refresh bookWithOtherType exampleModel).trace = [] :=
  ⟨Or.inr (by decide),
    (C9_refresh_is_silent bookWithOtherType exampleModel).1 (.folder .Styles) 0 0
      (Or.inr (by decide)),
    (C9_refresh_is_silent bookWithOtherType exampleModel).2.2.2.1⟩

/-! ## The stable sort -/

theorem stableInsert_perm {α : Type} (lessThan : α → α → Bool) (x : α) (l : List α) :
    (stableInsert lessThan x l).Perm (x :: l) := by
  induction l with
  | nil => exact List.Perm.refl _
  | cons y ys ih =>
    unfold stableInsert
    split
    · exact (List.Perm.cons y ih).trans (List.Perm.swap x y ys)
    · exact List.Perm.refl _

theorem stableSort_perm {α : Type} (lessThan : α → α → Bool) (l : List α) :
    (stableSort lessThan l).Perm l := by
  induction l with
  | nil => exact List.Perm.refl _
  | cons x xs ih =>
    unfold stableSort
    exact (stableInsert_perm lessThan x _).trans (List.Perm.cons x ih)

theorem stableInsert_pairwise {α : Type} (lessThan : α → α → Bool)
    (hasym : ∀ a b, lessThan a b = true → lessThan b a = false)
    (hneg : ∀ a b c, lessThan a b = false → lessThan b c = false → lessThan a c = false)
    (S : α → α → Prop) (x : α) (l : List α) (hx : ∀ z ∈ l, S x z)
    (hl : l.Pairwise (fun a b => lessThan b a = false ∧ (lessThan a b = false → S a b))) :
    (stableInsert lessThan x l).Pairwise
      (fun a b => lessThan b a = false ∧ (lessThan a b = false → S a b)) := by
  induction l with
  | nil => simp [stableInsert]
  | cons y ys ih =>
    have hy := (List.pairwise_cons.mp hl).1
    have hys := (List.pairwise_cons.mp hl).2
    unfold stableInsert
    by_cases hlt : lessThan y x = true
    · simp only [hlt, if_true]
      refine List.Pairwise.cons ?_ (ih (fun z hz => hx z (List.mem_cons_of_mem y hz)) hys)
      intro z hz
      rcases List.mem_cons.mp ((stableInsert_perm lessThan x ys).subset hz) with hzx | hzy
      · subst hzx
        exact ⟨hasym y z hlt, fun h => by rw [hlt] at h; cases h⟩
      · exact hy z hzy
    · have hlt2 : lessThan y x = false := by simpa using hlt
      simp only [hlt2, Bool.false_eq_true, if_false]
      refine List.Pairwise.cons ?_ hl
      intro z hz
      rcases List.mem_cons.mp hz with hzy | hzy
      · subst hzy
        exact ⟨hlt2, fun _ => hx z (List.mem_cons_self z ys)⟩
      · exact ⟨hneg z y x (hy z hzy).1 hlt2, fun _ => hx z hz⟩

theorem stableSort_pairwise {α : Type} (lessThan : α → α → Bool)
    (hasym : ∀ a b, lessThan a b = true → lessThan b a = false)
    (hneg : ∀ a b c, lessThan a b = false → lessThan b c = false → lessThan a c = false)
    (S : α → α → Prop) (l : List α) (hS : l.Pairwise S) :
    (stableSort lessThan l).Pairwise
      (fun a b => lessThan b a = false ∧ (lessThan a b = false → S a b)) := by
  induction l with
  | nil => simp [stableSort]
  | cons x xs ih =>
    unfold stableSort
    refine stableInsert_pairwise lessThan hasym hneg S x _ ?_ (ih (List.pairwise_cons.mp hS).2)
    intro z hz
    exact (List.pairwise_cons.mp hS).1 z ((stableSort_perm lessThan xs).subset hz)

theorem map_stableInsert {α β : Type} (g : α → β) (lessThan : β → β → Bool) (x : α)
    (l : List α) :
    (stableInsert (fun a b => lessThan (g a) (g b)) x l).map g =
      stableInsert lessThan (g x) (l.map g) := by
  induction l with
  | nil => rfl
  | cons y ys ih =>
    simp only [stableInsert, List.map_cons]
    split
    · simp [ih]
    · rfl

theorem map_stableSort {α β : Type} (g : α → β) (lessThan : β → β → Bool) (l : List α) :
    (stableSort (fun a b => lessThan (g a) (g b)) l).map g = stableSort lessThan (l.map g) := by
  induction l with
  | nil => rfl
  | cons x xs ih =>
    simp only [stableSort, List.map_cons]
    rw [map_stableInsert, ih]

theorem unitsLessThan_asymm (a b : List Nat) :
    unitsLessThan a b = true → unitsLessThan b a = false := by
  induction a generalizing b with
  | nil =>
    intro _
    cases b <;> rfl
  | cons x xs ih =>
    cases b with
    | nil => intro h; simp [unitsLessThan] at h
    | cons y ys =>
      intro h
      unfold unitsLessThan at h ⊢
      by_cases h1 : x < y
      · have h2 : ¬ y < x := by omega
        simp [h1, h2]
      · by_cases h2 : y < x
        · simp [h1, h2] at h
        · simp only [h1, h2, if_false] at h ⊢
          exact ih ys h

theorem unitsLessThan_negtrans (a b c : List Nat) :
    unitsLessThan a b = false → unitsLessThan b c = false → unitsLessThan a c = false := by
  induction a generalizing b c with
  | nil =>
    intro hab hbc
    cases b with
    | nil => exact hbc
    | cons y ys => simp [unitsLessThan] at hab
  | cons x xs ih =>
    intro hab hbc
    cases c with
    | nil => rfl
    | cons z zs =>
      cases b with
      | nil => simp [unitsLessThan] at hbc
      | cons y ys =>
        unfold unitsLessThan at hab hbc ⊢
        by_cases h1 : x < y
        · simp [h1] at hab
        · by_cases h2 : y < z
          · simp [h2] at hbc
          · by_cases h3 : y < x
            · have h4 : ¬ x < z := by omega
              have h5 : z < x := by omega
              simp [h4, h5]
            · by_cases h6 : z < y
              · have h4 : ¬ x < z := by omega
                have h5 : z < x := by omega
                simp [h4, h5]
              · have h4 : ¬ x < z := by omega
                have h5 : ¬ z < x := by omega
                simp only [h1, h3, if_false] at hab
                simp only [h2, h6, if_false] at hbc
                simp only [h4, h5, if_false]
                exact ih ys zs hab hbc

theorem codesLessThan_asymm (a b : List Char) :
    codesLessThan a b = true → codesLessThan b a = false :=
  unitsLessThan_asymm _ _

theorem codesLessThan_negtrans (a b c : List Char) :
    codesLessThan a b = false → codesLessThan b c = false → codesLessThan a c = false :=
  unitsLessThan_negtrans _ _ _

/-- The order is by UTF-16 code unit, not by code point: U+1D400 is stored
as the surrogates D835 DC00 and so sorts before U+FF21. -/
theorem codesLessThan_by_code_unit :
    codesLessThan [Char.ofNat 0x1D400] [Char.ofNat 0xFF21] = true ∧
    codesLessThan [Char.ofNat 0xFF21] [Char.ofNat 0x1D400] = false ∧
    codesLessThan "a.css".data "b.css".data = true ∧
    codesLessThan "a".data "a.css".data = true ∧
    codesLessThan "B.css".data "a.css".data = true := by
  decide

theorem itemLessThan_asymm (role : SortRole) (a b : Item) :
    itemLessThan role a b = true → itemLessThan role b a = false := by
  cases role with
  | DisplayRole => exact codesLessThan_asymm _ _
  | READING_ORDER_ROLE =>
    simp only [itemLessThan, decide_eq_true_eq, decide_eq_false_iff_not]
    omega

theorem itemLessThan_negtrans (role : SortRole) (a b c : Item) :
    itemLessThan role a b = false → itemLessThan role b c = false →
      itemLessThan role a c = false := by
  cases role with
  | DisplayRole => exact codesLessThan_negtrans _ _ _
  | READING_ORDER_ROLE =>
    simp only [itemLessThan, decide_eq_false_iff_not]
    omega


/-! ## Display order after a refresh -/

theorem sorted_by_filename (book : Book) (rs0 : List Resource) :
    ∃ rs, rs.Perm rs0 ∧
      stableSort (itemLessThan .DisplayRole) (rs0.map (createdItem book)) =
        rs.map (createdItem book) ∧
      filenameAscending rs ∧
      rs = stableSort (fun a b => itemLessThan .DisplayRole (createdItem book a) (createdItem book b))
        rs0 := by
  refine ⟨stableSort (fun a b =>
    itemLessThan .DisplayRole (createdItem book a) (createdItem book b)) rs0,
    stableSort_perm _ _, (map_stableSort _ _ _).symm, ?_, rfl⟩
  have := stableSort_pairwise
    (fun a b => itemLessThan .DisplayRole (createdItem book a) (createdItem book b))
    (fun a b => itemLessThan_asymm _ _ _) (fun a b c => itemLessThan_negtrans _ _ _ _)
    (fun _ _ => True) rs0 (List.pairwise_of_forall (fun _ _ => trivial))
  exact this.imp (fun h => h.1)

theorem specParent_eq_Text (t : ResourceType) :
    specParent t = .folder .Text ↔ t = .HTMLResourceType := by
  cases t <;> simp [specParent]

theorem placed_Text (book : Book) (rs : List Resource) :
    placed book (.folder .Text) rs =
      (rs.filter (fun resource => resource.type = .HTMLResourceType)).map (createdItem book) := by
  unfold placed
  congr 1
  apply List.filter_congr
  intro r _
  simp [specParent_eq_Text]

/-- C7, as amended: the display order `Refresh` leaves. The rows of the Text
folder are the items of the HTML resources of the book, each showing the
filename and holding the stored reading order (the one the OPF reports,
2147483647 for -1), arranged so that the stored reading orders never decrease
down the rows and resources of equal stored reading order stand in ascending
filename order; a resource for which the OPF reports -1 stands before no
resource whose reported reading order is other than -1 and below 2147483647.
The rows of Styles, Images, Fonts and Misc are the items of their resources
in ascending filename order. -/
theorem C7_display_order_after_Refresh (book : Book) (m : Model) (hwf : WellFormed m) :
    NO_READING_ORDER = 2147483647 ∧
    (∀ resource, storedReadingOrder book resource =
      if book.GetReadingOrder resource = -1 then 2147483647
      else book.GetReadingOrder resource) ∧
    (∀ resource, resource.type = .HTMLResourceType →
      (createdItem book resource).text = resource.filename ∧
      (createdItem book resource).reading_order = some (storedReadingOrder book resource)) ∧
    (∃ htmls : List Resource,
      htmls.Perm (book.resources.filter (fun resource => resource.type = .HTMLResourceType)) ∧
      (Refresh book m).m_TextFolderItem = htmls.map (createdItem book) ∧
      htmls.Pairwise (fun a b => storedReadingOrder book a ≤ storedReadingOrder book b) ∧
      htmls.Pairwise (fun a b => storedReadingOrder book a = storedReadingOrder book b →
        codesLessThan b.filename.data a.filename.data = false) ∧
      htmls.Pairwise (fun a b => book.GetReadingOrder a = -1 →
        book.GetReadingOrder b = -1 ∨ 2147483647 ≤ book.GetReadingOrder b)) ∧
    (∀ f : Folder, f ≠ .Text →
      ∃ rs : List Resource,
        rs.Perm (book.resources.filter (fun resource => specParent resource.type = .folder f)) ∧
        rows f (Refresh book m) = rs.map (createdItem book) ∧
        (∀ resource, (createdItem book resource).text = resource.filename) ∧
        filenameAscending rs) := by
  rw [Refresh_spec book m hwf]
  refine ⟨rfl, fun _ => rfl, fun resource h => ⟨rfl, by simp [createdItem, h]⟩, ?_, ?_⟩
  · obtain ⟨l1, hp1, he1, ha1, _⟩ := sorted_by_filename book
      (book.resources.filter (fun resource => resource.type = .HTMLResourceType))
    let lt2 : Resource → Resource → Bool := fun a b =>
      itemLessThan .READING_ORDER_ROLE (createdItem book a) (createdItem book b)
    have hsorted := stableSort_pairwise lt2
      (fun a b => itemLessThan_asymm _ _ _) (fun a b c => itemLessThan_negtrans _ _ _ _)
      (fun a b => codesLessThan b.filename.data a.filename.data = false) l1 ha1
    have hperm : (stableSort lt2 l1).Perm
        (book.resources.filter (fun resource => resource.type = .HTMLResourceType)) :=
      (stableSort_perm lt2 l1).trans hp1
    have hhtml : ∀ r ∈ stableSort lt2 l1, r ∈ book.resources ∧ r.type = .HTMLResourceType := by
      intro r hr
      have := hperm.subset hr
      simpa using this
    have hlt : ∀ a b, a.type = .HTMLResourceType → b.type = .HTMLResourceType →
        lt2 a b = decide (storedReadingOrder book a < storedReadingOrder book b) := by
      intro a b ha hb
      simp [lt2, itemLessThan, createdItem, ha, hb]
    refine ⟨stableSort lt2 l1, hperm, ?_, ?_, ?_, ?_⟩
    · simp only []
      rw [placed_Text, he1]
      exact (map_stableSort _ _ _).symm
    · refine hsorted.imp_of_mem ?_
      intro a b ha hb h
      have := h.1
      rw [hlt b a (hhtml b hb).2 (hhtml a ha).2] at this
      simpa using this
    · refine hsorted.imp_of_mem ?_
      intro a b ha hb h heq
      apply h.2
      rw [hlt a b (hhtml a ha).2 (hhtml b hb).2]
      simp [heq]
    · refine hsorted.imp_of_mem ?_
      intro a b ha hb h hna
      have hle := h.1
      rw [hlt b a (hhtml b hb).2 (hhtml a ha).2] at hle
      have hle2 : storedReadingOrder book a ≤ storedReadingOrder book b := by simpa using hle
      by_cases hnb : book.GetReadingOrder b = -1
      · exact Or.inl hnb
      · right
        simp only [storedReadingOrder, NO_READING_ORDER, hna, hnb, if_true, if_false] at hle2
        exact hle2
  · intro f hf
    obtain ⟨rs, hp, he, ha, _⟩ := sorted_by_filename book
      (book.resources.filter (fun resource => specParent resource.type = .folder f))
    refine ⟨rs, hp, ?_, fun _ => rfl, ha⟩
    cases f with
    | Text => exact absurd rfl hf
    | Styles => exact he
    | Images => exact he
    | Fonts => exact he
    | Misc => exact he

/-- C7 on the shelf book, from the model the constructor builds: the Text
folder shows `c.xhtml`, `b.xhtml` (the spine), then `a.xhtml`, `d.xhtml`
(no reading order, by filename); Styles shows `m.css`, `page.xpgt`, `z.css`. -/
theorem C7_display_order_witness :
    WellFormed OPFModel_constructor ∧
    (∃ htmls : List Resource,
      htmls.Perm (shelfBook.resources.filter
        (fun resource => resource.type = .HTMLResourceType)) ∧
      (Refresh shelfBook OPFModel_constructor).m_TextFolderItem =
        htmls.map (createdItem shelfBook) ∧
      htmls.Pairwise (fun a b =>
        storedReadingOrder shelfBook a ≤ storedReadingOrder shelfBook b) ∧
      htmls.Pairwise (fun a b => storedReadingOrder shelfBook a = storedReadingOrder shelfBook b →
        codesLessThan b.filename.data a.filename.data = false) ∧
      htmls.Pairwise (fun a b => shelfBook.GetReadingOrder a = -1 →
        shelfBook.GetReadingOrder b = -1 ∨ 2147483647 ≤ shelfBook.GetReadingOrder b)) ∧
    (Refresh shelfBook OPFModel_constructor).m_TextFolderItem.map
        (fun item => (item.text, item.reading_order)) =
      [("c.xhtml", some 0), ("b.xhtml", some 1), ("a.xhtml", some 2147483647),
       ("d.xhtml", some 2147483647)] ∧
    (Refresh shelfBook OPFModel_constructor).m_StylesFolderItem.map (fun item => item.text) =
      ["m.css", "page.xpgt", "z.css"] :=
  ⟨⟨rfl, rfl⟩,
    (C7_display_order_after_Refresh shelfBook OPFModel_constructor ⟨rfl, rfl⟩).2.2.2.1,
    by rw [Refresh_spec shelfBook OPFModel_constructor ⟨rfl, rfl⟩]; decide,
    by rw [Refresh_spec shelfBook OPFModel_constructor ⟨rfl, rfl⟩]; decide⟩

/-- C7 as first stated fails when the OPF reports the reading order
2147483647: in the colliding book `a.xhtml`, for which the OPF reports -1,
is shown above `b.xhtml`, which has a reading order; both are stored with
2147483647 and the filename decides. -/
theorem C7_no_reading_order_shown_first :
    collidingBook.resources.map (fun resource =>
        (resource.filename, resource.type, collidingBook.GetReadingOrder resource)) =
      [("b.xhtml", .HTMLResourceType, 2147483647), ("a.xhtml", .HTMLResourceType, -1)] ∧
    WellFormed OPFModel_constructor ∧
    (Refresh collidingBook OPFModel_constructor).m_TextFolderItem.map
        (fun item => (item.text, item.reading_order)) =
      [("a.xhtml", some 2147483647), ("b.xhtml", some 2147483647)] := by
  refine ⟨by decide, ⟨rfl, rfl⟩, ?_⟩
  rw [Refresh_spec collidingBook OPFModel_constructor ⟨rfl, rfl⟩]
  decide

/-! ## A refresh depends on the book alone -/

theorem WellFormed_constructor : WellFormed OPFModel_constructor := ⟨rfl, rfl⟩

theorem filter_folders_of_refreshed (files : List Item) :
    ([RootRow.folder Folder.Text, .folder .Styles, .folder .Images, .folder .Fonts,
        .folder .Misc] ++ files.map RootRow.file).filter (fun child => !isNoFolderItem child) =
      [.folder .Text, .folder .Styles, .folder .Images, .folder .Fonts, .folder .Misc] := by
  rw [List.filter_append]
  have h : (files.map RootRow.file).filter (fun child => !isNoFolderItem child) = [] := by
    induction files with
    | nil => rfl
    | cons a t ih =>
      rw [List.map_cons, List.filter_cons]
      simp only [isNoFolderItem_file, Bool.not_true, Bool.false_eq_true, if_false]
      exact ih
  rw [h]
  rfl

theorem WellFormed_RowsRemovedHandler (book : Book) (parent : Parent) (first last : Nat)
    (m : Model) (h : WellFormed m) : WellFormed (RowsRemovedHandler book parent first last m) := by
  unfold RowsRemovedHandler
  split
  · exact h
  · exact h

theorem WellFormed_InitializeModel (book : Book) (m : Model) (h : WellFormed m) :
    WellFormed (InitializeModel book m) := by
  obtain ⟨tr, he, _⟩ := InitializeModel_spec book m
  rw [he]
  refine ⟨h.1, ?_⟩
  show List.filter _ (List.filter _ m.root ++ _) = _
  rw [h.2]
  exact filter_folders_of_refreshed _

theorem WellFormed_Refresh (book : Book) (m : Model) (h : WellFormed m) :
    WellFormed (Refresh book m) := by
  rw [Refresh_spec book m h]
  exact ⟨rfl, filter_folders_of_refreshed _⟩

/-- C10: `ClearModel` returns from every model: all five folders are left
without rows and the root keeps its folder items, in the order they had, and
nothing else. Hence the model `Refresh` builds from a book is the same from
whatever model it starts (the folder items being the five members in the
order the constructor appended them), and a second `Refresh` in a row gives
the model the first one gave. -/
theorem C10_Refresh_depends_on_the_book_only (book : Book) :
    (∀ m : Model,
      (∀ f, rows f (ClearModel book m) = []) ∧
      (ClearModel book m).root = m.root.filter (fun child => !isNoFolderItem child) ∧
      (∀ child ∈ (ClearModel book m).root, ∃ f, child = .folder f)) ∧
    (∀ m : Model, WellFormed m →
      (ClearModel book m).root =
        [.folder .Text, .folder .Styles, .folder .Images, .folder .Fonts, .folder .Misc]) ∧
    (∀ m1 m2 : Model, WellFormed m1 → WellFormed m2 →
      { Refresh book m1 with trace := [] } = { Refresh book m2 with trace := [] }) ∧
    (∀ m : Model, WellFormed m → Refresh book (Refresh book m) = Refresh book m) := by
  refine ⟨?_, ?_, ?_, ?_⟩
  · intro m
    obtain ⟨tr, he, _⟩ := ClearModel_spec book m
    refine ⟨?_, ?_, ?_⟩
    · intro f
      rw [he]
      cases f <;> rfl
    · rw [he]
    · rw [he]
      intro child hc
      have hc2 : child ∈ m.root.filter (fun child => !isNoFolderItem child) := hc
      have := (List.mem_filter.mp hc2).2
      cases child with
      | folder f => exact ⟨f, rfl⟩
      | file item => simp [isNoFolderItem_file] at this
  · intro m hwf
    obtain ⟨tr, he, _⟩ := ClearModel_spec book m
    rw [he]
    exact hwf.2
  · intro m1 m2 h1 h2
    rw [Refresh_spec book m1 h1, Refresh_spec book m2 h2]
  · intro m hwf
    rw [Refresh_spec book (Refresh book m) (WellFormed_Refresh book m hwf)]
    rw [Refresh_spec book m hwf]


/-- C10 at the model the constructor builds and the model in use. -/
theorem C10_Refresh_witness :
    WellFormed OPFModel_constructor ∧ WellFormed exampleModel ∧
    { Refresh bookWithOtherType OPFModel_constructor with trace := [] } =
      { Refresh bookWithOtherType exampleModel with trace := [] } ∧
    Refresh bookWithOtherType (Refresh bookWithOtherType exampleModel) =
      Refresh bookWithOtherType exampleModel :=
  ⟨⟨rfl, rfl⟩, ⟨rfl, rfl⟩,
    (C10_Refresh_depends_on_the_book_only bookWithOtherType).2.2.1 OPFModel_constructor
      exampleModel ⟨rfl, rfl⟩ ⟨rfl, rfl⟩,
    (C10_Refresh_depends_on_the_book_only bookWithOtherType).2.2.2 exampleModel ⟨rfl, rfl⟩⟩

/-! ## Finding the item of a resource -/

theorem GetModelFolderItemIndex_loop_current (folderIsRoot : Bool) (rid : String)
    (rowCount : Nat) (l : List Item) (k : Nat) (hne : rid ≠ "")
    (hex : ∃ item ∈ l, item.identifier = rid) :
    ∃ i item, GetModelFolderItemIndex_loop folderIsRoot rid .IndexChoice_Current rowCount k l =
        some (k + i) ∧ l.get? i = some item ∧ item.identifier = rid := by
  induction l generalizing k with
  | nil =>
    obtain ⟨item, hm, _⟩ := hex
    cases hm
  | cons a t ih =>
    by_cases ha : a.identifier = rid
    · refine ⟨0, a, ?_, rfl, ha⟩
      have he : a.identifier.isEmpty = false := by
        cases h : a.identifier.isEmpty
        · rfl
        · exact absurd (ha.symm.trans ((String.isEmpty_iff _).mp h)) hne
      have hc : (!a.identifier.isEmpty && a.identifier == rid) = true := by
        rw [he, ha]; simp
      unfold GetModelFolderItemIndex_loop
      simp only [hc, if_true]
      cases folderIsRoot <;> rfl
    · have hex2 : ∃ item ∈ t, item.identifier = rid := by
        obtain ⟨item, hm, hid⟩ := hex
        rcases List.mem_cons.mp hm with h | h
        · exact absurd (h ▸ hid) ha
        · exact ⟨item, h, hid⟩
      obtain ⟨i, item, hres, hget, hid⟩ := ih (k + 1) hex2
      refine ⟨i + 1, item, ?_, hget, hid⟩
      have hb : (a.identifier == rid) = false := by simpa using ha
      unfold GetModelFolderItemIndex_loop
      simp only [hb, Bool.and_false, Bool.false_eq_true, if_false]
      rw [hres]
      congr 1
      omega

theorem children_Refresh (book : Book) (m : Model) (hwf : WellFormed m) (parent : Parent) :
    (∀ item ∈ children parent (Refresh book m),
      item.identifier = "" ∨ ∃ r ∈ book.resources, item = createdItem book r) ∧
    (∀ r ∈ book.resources, specParent r.type = parent →
      createdItem book r ∈ children parent (Refresh book m)) := by
  rw [Refresh_spec book m hwf]
  have hplaced : ∀ p item, item ∈ placed book p book.resources ↔
      ∃ r ∈ book.resources, specParent r.type = p ∧ item = createdItem book r := by
    intro p item
    simp only [placed, List.mem_map, List.mem_filter, decide_eq_true_eq]
    constructor
    · rintro ⟨r, ⟨hr, hp⟩, rfl⟩
      exact ⟨r, hr, hp, rfl⟩
    · rintro ⟨r, hr, hp, rfl⟩
      exact ⟨r, ⟨hr, hp⟩, rfl⟩
  have hsort : ∀ (role : SortRole) (l : List Item) (item : Item),
      item ∈ stableSort (itemLessThan role) l ↔ item ∈ l :=
    fun role l item => (stableSort_perm _ l).mem_iff
  rcases parent with _ | f
  · constructor
    · intro item hm
      simp only [children, List.map_append, List.mem_append, List.map_map] at hm
      rcases hm with hm | hm
      · left
        simp only [List.map_cons, List.map_nil, List.mem_cons, List.mem_singleton,
          List.not_mem_nil, or_false] at hm
        rcases hm with h | h | h | h | h <;> rw [h] <;> rfl
      · right
        obtain ⟨x, hx, rfl⟩ := List.mem_map.mp hm
        obtain ⟨r, hr, _, rfl⟩ := (hplaced _ _).mp hx
        exact ⟨r, hr, rfl⟩
    · intro r hr hp
      simp only [children, List.map_append, List.mem_append, List.map_map]
      right
      exact List.mem_map.mpr ⟨createdItem book r, (hplaced _ _).mpr ⟨r, hr, hp, rfl⟩, rfl⟩
  · constructor
    · intro item hm
      right
      have : item ∈ placed book (.folder f) book.resources := by
        cases f <;> simpa [children, rows, hsort] using hm
      obtain ⟨r, hr, _, rfl⟩ := (hplaced _ _).mp this
      exact ⟨r, hr, rfl⟩
    · intro r hr hp
      have : createdItem book r ∈ placed book (.folder f) book.resources :=
        (hplaced _ _).mpr ⟨r, hr, hp, rfl⟩
      cases f <;> simpa [children, rows, hsort] using this

theorem GetModelItemIndex_folder (book : Book) (m : Model) (hwf : WellFormed m)
    (resource : Resource) (hnamed : ∀ tag, resource.type ≠ .OtherResourceType tag)
    (indexChoice : IndexChoice) :
    GetModelItemIndex (Refresh book m) resource indexChoice =
      GetModelFolderItemIndex (Refresh book m) (some (specParent resource.type)) resource
        indexChoice := by
  unfold GetModelItemIndex
  rw [Refresh_spec book m hwf]
  simp only []
  rcases resource with ⟨id, fn, ty, fp, rp⟩
  cases ty with
  | OtherResourceType tag => exact absurd rfl (hnamed tag)
  | _ => rfl

/-- C6: `GetModelItemIndex` finds the item of a resource under whichever
parent holds it. In a book whose identifiers are non-empty and pairwise
distinct, for every resource of the resource list whose type is one of the
eight enumerators of `Resource::ResourceType`, the call
`GetModelItemIndex( resource, IndexChoice_Current )` after `Refresh` returns
an index under the parent the type selects (Text, Styles, Images, Fonts, Misc
or the root), and the row of that index holds the item `InitializeModel`
made for the resource, whose stored identifier is the resource's. -/
theorem C6_GetModelItemIndex_finds_the_item (book : Book) (m : Model) (hwf : WellFormed m)
    (hids : ∀ r ∈ book.resources, r.identifier ≠ "")
    (hdistinct : (book.resources.map (fun r => r.identifier)).Nodup)
    (resource : Resource) (hmem : resource ∈ book.resources)
    (hnamed : ∀ tag, resource.type ≠ .OtherResourceType tag) :
    ∃ i, GetModelItemIndex (Refresh book m) resource .IndexChoice_Current =
        { row := i, column := 0, parent := specParent resource.type } ∧
      (children (specParent resource.type) (Refresh book m)).get? i =
        some (createdItem book resource) ∧
      (createdItem book resource).identifier = resource.identifier ∧
      createdItem book resource ∈
        fileItems (specParent resource.type) (InitializeModel book m) := by
  rw [GetModelItemIndex_folder book m hwf resource hnamed]
  obtain ⟨hall, hin⟩ := children_Refresh book m hwf (specParent resource.type)
  obtain ⟨i, item, hres, hget, hid⟩ := GetModelFolderItemIndex_loop_current
    (specParent resource.type == .root) resource.identifier
    (children (specParent resource.type) (Refresh book m)).length
    (children (specParent resource.type) (Refresh book m)) 0 (hids resource hmem)
    ⟨createdItem book resource, hin resource hmem rfl, rfl⟩
  refine ⟨i, ?_, ?_, rfl, ?_⟩
  · unfold GetModelFolderItemIndex
    simp only []
    rw [hres]
    simp
  · rw [hget]
    have hmemi : item ∈ children (specParent resource.type) (Refresh book m) :=
      List.get?_mem hget
    rcases hall item hmemi with h | ⟨r, hr, rfl⟩
    · exact absurd (hid ▸ h) (hids resource hmem)
    · have : r = resource :=
        List.inj_on_of_nodup_map hdistinct hr hmem hid
      rw [this]
  · rw [fileItems_InitializeModel]
    exact List.mem_map.mpr ⟨resource, List.mem_filter.mpr ⟨hmem, by simp⟩, rfl⟩

/-- C6 on the shelf book, from the model the constructor builds: the item of
`data.bin` is found at row 0 of Misc, that of `toc.ncx` at row 6 of the root,
that of `a.xhtml` at row 2 of Text. -/
theorem C6_GetModelItemIndex_witness :
    WellFormed OPFModel_constructor ∧
    (∀ r ∈ shelfBook.resources, r.identifier ≠ "") ∧
    (shelfBook.resources.map (fun r => r.identifier)).Nodup ∧
    (∃ i, GetModelItemIndex (Refresh shelfBook OPFModel_constructor)
          (shelfResource "id-bin" "data.bin" .GenericResourceType) .IndexChoice_Current =
        { row := i, column := 0, parent := .folder .Misc } ∧
      (children (.folder .Misc) (Refresh shelfBook OPFModel_constructor)).get? i =
        some (createdItem shelfBook (shelfResource "id-bin" "data.bin" .GenericResourceType)) ∧
      (createdItem shelfBook
        (shelfResource "id-bin" "data.bin" .GenericResourceType)).identifier = "id-bin" ∧
      createdItem shelfBook (shelfResource "id-bin" "data.bin" .GenericResourceType) ∈
        fileItems (.folder .Misc) (InitializeModel shelfBook OPFModel_constructor)) ∧
    GetModelItemIndex (Refresh shelfBook OPFModel_constructor)
        (shelfResource "id-bin" "data.bin" .GenericResourceType) .IndexChoice_Current =
      { row := 0, column := 0, parent := .folder .Misc } ∧
    GetModelItemIndex (Refresh shelfBook OPFModel_constructor)
        (shelfResource "id-ncx" "toc.ncx" .NCXResourceType) .IndexChoice_Current =
      { row := 6, column := 0, parent := .root } ∧
    GetModelItemIndex (Refresh shelfBook OPFModel_constructor)
        (shelfResource "id-a" "a.xhtml" .HTMLResourceType) .IndexChoice_Current =
      { row := 2, column := 0, parent := .folder .Text } :=
  ⟨⟨rfl, rfl⟩, by decide, by decide,
    C6_GetModelItemIndex_finds_the_item shelfBook OPFModel_constructor ⟨rfl, rfl⟩ (by decide)
      (by decide) (shelfResource "id-bin" "data.bin" .GenericResourceType) (by decide)
      (fun tag h => by cases h),
    by rw [Refresh_spec shelfBook OPFModel_constructor ⟨rfl, rfl⟩]; decide,
    by rw [Refresh_spec shelfBook OPFModel_constructor ⟨rfl, rfl⟩]; decide,
    by rw [Refresh_spec shelfBook OPFModel_constructor ⟨rfl, rfl⟩]; decide⟩

end OPFModel
